import Mathlib

/-!
Verification of the MSK IAM SASL signer library (`signer` package).

The development shallowly embeds the token-construction pipeline of
`signer/msk_auth_token_provider.go` together with the `SignerOptions`
validation logic.  External collaborators (the AWS config loader, the STS
client and the sig v4 presigner) are modelled as function parameters
("oracles"): the embedded code is polymorphic in them exactly where the Go
code calls out to the SDK, so "stage X is not executed" is expressed as
"the result does not depend on the oracle for stage X".

Go strings are byte strings.  They are modelled as Lean `String`s whose
characters all have code points below 256, each character standing for one
byte; the model of the `net/url` parser rejects inputs outside that range,
which is exactly the boundary of the correspondence.  The percent-encoding,
query-string and base64 routines are byte-faithful models of the `net/url`,
`encoding/base64` and `crypto/sha256` standard-library functions the signer
calls, restricted to that byte range.
-/

set_option linter.unusedVariables false

namespace MSKSigner

/-- Model of a Go `error` value as produced by `fmt.Errorf`: either a plain
message (no `%w` verb) or a message wrapping an underlying cause
(the `%w` verb, which preserves the wrapped error for `errors.Unwrap`). -/
inductive GoError where
  | errorf (msg : String)
  | wrap (msg : String) (cause : GoError)
deriving Repr, DecidableEq

/-- `Error()`: the rendered message; a wrapping error produced by
`fmt.Errorf("<msg>: %w", cause)` renders as `"<msg>: " + cause.Error()`. -/
def GoError.message : GoError → String
  | .errorf m => m
  | .wrap m e => m ++ ": " ++ e.message

/-- `errors.Unwrap`: the cause preserved by the `%w` verb, if any. -/
def GoError.unwrap : GoError → Option GoError
  | .errorf _ => none
  | .wrap _ e => some e

/-! ### ASCII character classes (model of `net/url`'s `shouldEscape`) -/

/-- ASCII letter, as tested by Go's `shouldEscape`. -/
def isAsciiAlpha (c : Char) : Bool :=
  (65 ≤ c.toNat && c.toNat ≤ 90) || (97 ≤ c.toNat && c.toNat ≤ 122)

/-- ASCII digit. -/
def isAsciiDigit (c : Char) : Bool :=
  48 ≤ c.toNat && c.toNat ≤ 57

/-- The bytes Go's query escaping leaves unescaped: alphanumerics and
`-`, `_`, `.`, `~` (mode `encodeQueryComponent`). -/
def unreservedChar (c : Char) : Bool :=
  isAsciiAlpha c || isAsciiDigit c || c = '-' || c = '_' || c = '.' || c = '~'

/-- Upper-case hexadecimal digit for a value below 16 (Go's `upperhex`). -/
def hexUpperDigit (n : Nat) : Char :=
  if n < 10 then Char.ofNat (48 + n) else Char.ofNat (55 + n)

/-- Lower-case hexadecimal digit for a value below 16 (Go's
`encoding/hex` alphabet). -/
def hexLowerDigit (n : Nat) : Char :=
  if n < 10 then Char.ofNat (48 + n) else Char.ofNat (87 + n)

/-- Value of a hexadecimal digit character, accepting both cases
(Go's `unhex`). -/
def hexVal (c : Char) : Option Nat :=
  if 48 ≤ c.toNat && c.toNat ≤ 57 then some (c.toNat - 48)
  else if 65 ≤ c.toNat && c.toNat ≤ 70 then some (c.toNat - 55)
  else if 97 ≤ c.toNat && c.toNat ≤ 102 then some (c.toNat - 87)
  else none

/-! ### Percent-encoding (model of `net/url.QueryEscape`/`QueryUnescape`) -/

/-- Escape a single byte the way `url.QueryEscape` does: unreserved bytes
stay, space becomes `+`, every other byte becomes `%XX` with upper-case
hexadecimal.  (Faithful for code points below 256, i.e. for Go bytes.) -/
def escapeChar (c : Char) : List Char :=
  if unreservedChar c then [c]
  else if c = ' ' then ['+']
  else ['%', hexUpperDigit (c.toNat / 16), hexUpperDigit (c.toNat % 16)]

/-- `url.QueryEscape` over a byte list. -/
def escapeList (cs : List Char) : List Char :=
  cs.flatMap escapeChar

/-- `url.QueryEscape`. -/
def queryEscape (s : String) : String :=
  ⟨escapeList s.data⟩

/-- `url.QueryUnescape` (mode `encodeQueryComponent`) over a byte list:
`+` becomes space, `%XX` becomes the byte `XX`, a malformed `%` sequence is
an error, every other byte is passed through. -/
def unescapeList : List Char → Except GoError (List Char)
  | [] => .ok []
  | c :: rest =>
    if c = '%' then
      match rest with
      | a :: b :: rest' =>
        match hexVal a, hexVal b with
        | some ha, some hb => (unescapeList rest').map (fun ds => Char.ofNat (16 * ha + hb) :: ds)
        | _, _ => .error (.errorf "invalid URL escape")
      | _ => .error (.errorf "invalid URL escape")
    else if c = '+' then (unescapeList rest).map (fun ds => ' ' :: ds)
    else (unescapeList rest).map (fun ds => c :: ds)

/-! ### Query strings (model of `url.Values`) -/

/-- `url.Values`: a map from parameter keys to lists of values.  Modelled as
an association list whose keys are pairwise distinct; only the observations
the signer uses (`Encode`, `Get`, `Set`, appending during parsing) are
modelled, and they agree with Go's unordered map under that invariant. -/
abbrev Values := List (String × List String)

/-- `m[key] = append(m[key], value)` as performed by `url.ParseQuery`. -/
def valuesAppend (q : Values) (k v : String) : Values :=
  match q with
  | [] => [(k, [v])]
  | (k', vs) :: rest =>
    if k' = k then (k', vs ++ [v]) :: rest else (k', vs) :: valuesAppend rest k v

/-- `url.Values.Set`: replace the values of `k` by the single value `v`. -/
def valuesSet (q : Values) (k v : String) : Values :=
  match q with
  | [] => [(k, [v])]
  | (k', vs) :: rest =>
    if k' = k then (k', [v]) :: rest else (k', vs) :: valuesSet rest k v

/-- All values stored under a key (`m[key]`). -/
def valuesGetAll (q : Values) (k : String) : List String :=
  match q.find? (fun e => e.1 = k) with
  | none => []
  | some e => e.2

/-- `url.Values.Get`: the first value stored under the key, `""` if none. -/
def valuesGet (q : Values) (k : String) : String :=
  (valuesGetAll q k).headD ""

/-- Split a byte list at every occurrence of a separator byte, the way the
`strings.Cut` loop inside `url.ParseQuery` does. -/
def splitSep (sep : Char) : List Char → List (List Char)
  | [] => [[]]
  | c :: rest =>
    let r := splitSep sep rest
    if c = sep then [] :: r
    else
      match r with
      | s :: ss => (c :: s) :: ss
      | [] => [[c]]

/-- One iteration of the `url.ParseQuery` loop on a `key[=value]` segment,
skipping the segment on any of the conditions Go skips it on (empty
segment, embedded `;`, unescape failure).  `url.URL.Query()` discards the
error `ParseQuery` reports alongside the partial map, so the model keeps
only the map. -/
def parsePair (q : Values) (seg : List Char) : Values :=
  if seg = [] then q
  else if ';' ∈ seg then q
  else
    match unescapeList (seg.takeWhile (fun c => c ≠ '=')),
        unescapeList ((seg.dropWhile (fun c => c ≠ '=')).drop 1) with
    | .ok k', .ok v' => valuesAppend q ⟨k'⟩ ⟨v'⟩
    | _, _ => q

/-- `url.ParseQuery` as used by `url.URL.Query()` (parse errors ignored,
successfully parsed pairs kept). -/
def parseQuery (s : String) : Values :=
  (splitSep '&' s.data).foldl parsePair []

/-- Byte-wise ordering on keys, as `sort.Strings` orders them inside
`url.Values.Encode`. -/
def charsLe : List Char → List Char → Bool
  | [], _ => true
  | _ :: _, [] => false
  | a :: as, b :: bs =>
    if a.toNat < b.toNat then true
    else if b.toNat < a.toNat then false
    else charsLe as bs

/-- Byte-wise `≤` on strings. -/
def strLe (a b : String) : Bool := charsLe a.data b.data

/-- The keys of `url.Values.Encode` in sorted order, each key paired with
its values. -/
def sortPairs (q : Values) : Values :=
  List.insertionSort (fun a b => strLe a.1 b.1 = true) q

/-- Join the encoded `k=v` segments with `&` (the `strings.Builder` loop of
`url.Values.Encode`). -/
def joinAmp : List (List Char) → List Char
  | [] => []
  | [s] => s
  | s :: rest => s ++ '&' :: joinAmp rest

/-- The encoded `k=v` segments of `url.Values.Encode`, keys sorted,
each key and value query-escaped. -/
def encodeSegs (q : Values) : List (List Char) :=
  (sortPairs q).flatMap (fun kv => kv.2.map (fun v => escapeList kv.1.data ++ '=' :: escapeList v.data))

/-- `url.Values.Encode`. -/
def valuesEncode (q : Values) : String :=
  ⟨joinAmp (encodeSegs q)⟩

/-- The keys of a `Values` map, in representation order. -/
def valuesKeys (q : Values) : List String :=
  q.map Prod.fst

/-- Well-formedness of a `Values` representation: keys pairwise distinct,
every key has at least one value, and every key and value is a byte string
(all code points below 256). -/
def ValuesWF (q : Values) : Prop :=
  (valuesKeys q).Nodup ∧ (∀ e ∈ q, e.2 ≠ [])
    ∧ (∀ e ∈ q, (∀ c ∈ (e.1 : String).data, c.toNat < 256)
        ∧ ∀ v ∈ e.2, ∀ c ∈ (v : String).data, c.toNat < 256)

/-! ### URLs (model of `net/url.URL`, `url.Parse` and `URL.String`) -/

/-- The components of a parsed URL the signer uses.  `rawQuery` and
`fragment` are stored raw, as in `net/url.URL`. -/
structure URL where
  scheme : String
  host : String
  path : String
  rawQuery : String
  fragment : String
deriving Repr, DecidableEq

/-- `url.URL.String()` for hierarchical URLs whose stored path needs no
re-escaping (the parser below only produces such URLs). -/
def urlString (u : URL) : String :=
  u.scheme ++ "://" ++ u.host ++ u.path
    ++ (if u.rawQuery = "" then "" else "?" ++ u.rawQuery)
    ++ (if u.fragment = "" then "" else "#" ++ u.fragment)

/-- A byte that may appear anywhere in a URL: printable (Go's `url.Parse`
rejects ASCII control characters and DEL) and below 256 (a Go byte). -/
def urlChar (c : Char) : Bool :=
  32 ≤ c.toNat && c.toNat ≠ 127 && c.toNat < 256

/-- A valid scheme: a letter followed by letters, digits, `+`, `-`, `.`
(Go's `getScheme`). -/
def validScheme (cs : List Char) : Bool :=
  match cs with
  | [] => false
  | c :: rest =>
    isAsciiAlpha c &&
      rest.all (fun c => isAsciiAlpha c || isAsciiDigit c || c = '+' || c = '-' || c = '.')

/-- Bytes Go accepts in a host component. -/
def hostChar (c : Char) : Bool :=
  isAsciiAlpha c || isAsciiDigit c
    || c = '.' || c = '-' || c = '_' || c = '~' || c = ':' || c = '[' || c = ']' || c = '%'

/-- Model of `url.Parse`, restricted to absolute hierarchical URLs
(`scheme://host[/path][?query][#fragment]`), the shape of every URL the
signer builds, signs and finalizes.  Inputs outside this shape (for the
test's `":invalidURL:"`, a leading `:`, Go's "missing protocol scheme"
error) are rejected with an error, as are bytes `url.Parse` rejects. -/
def urlParse (s : String) : Except GoError URL :=
  let cs := s.data
  if ¬ cs.all urlChar then .error (.errorf "net/url: invalid control character in URL")
  else
    let beforeFrag := cs.takeWhile (fun c => c ≠ '#')
    let frag := (cs.dropWhile (fun c => c ≠ '#')).drop 1
    let schemeCs := beforeFrag.takeWhile (fun c => c ≠ ':')
    match beforeFrag.dropWhile (fun c => c ≠ ':') with
    | [] => .error (.errorf "missing protocol scheme")
    | _ :: afterColon =>
      if schemeCs = [] then .error (.errorf "missing protocol scheme")
      else if ¬ validScheme schemeCs then .error (.errorf "invalid URL scheme")
      else
        match afterColon with
        | '/' :: '/' :: hostStart =>
          let hostCs := hostStart.takeWhile (fun c => c ≠ '/' && c ≠ '?')
          let afterHost := hostStart.dropWhile (fun c => c ≠ '/' && c ≠ '?')
          if ¬ hostCs.all hostChar then .error (.errorf "invalid character in host name")
          else
            let pathCs := afterHost.takeWhile (fun c => c ≠ '?')
            let query := (afterHost.dropWhile (fun c => c ≠ '?')).drop 1
            .ok { scheme := ⟨schemeCs.map Char.toLower⟩, host := ⟨hostCs⟩,
                  path := ⟨pathCs⟩, rawQuery := ⟨query⟩, fragment := ⟨frag⟩ }
        | _ => .error (.errorf "non-hierarchical URL not modelled")

/-! ### UTF-8 and base64 (model of `[]byte(s)` and `base64.RawURLEncoding`) -/

/-- The UTF-8 bytes of a code point. -/
def utf8EncodeChar (c : Char) : List Nat :=
  let n := c.toNat
  if n < 128 then [n]
  else if n < 2048 then [192 + n / 64, 128 + n % 64]
  else if n < 65536 then [224 + n / 4096, 128 + n / 64 % 64, 128 + n % 64]
  else [240 + n / 262144, 128 + n / 4096 % 64, 128 + n / 64 % 64, 128 + n % 64]

/-- The UTF-8 bytes of a string (`[]byte(s)` in Go). -/
def strBytes (s : String) : List Nat :=
  s.data.flatMap utf8EncodeChar

/-- The URL-safe base64 alphabet (`A-Z a-z 0-9 - _`). -/
def base64Char (n : Nat) : Char :=
  if n < 26 then Char.ofNat (65 + n)
  else if n < 52 then Char.ofNat (97 + (n - 26))
  else if n < 62 then Char.ofNat (48 + (n - 52))
  else if n = 62 then '-' else '_'

/-- `base64.RawURLEncoding.EncodeToString`: URL-safe alphabet, no padding. -/
def base64UrlNoPad : List Nat → List Char
  | b1 :: b2 :: b3 :: rest =>
    base64Char (b1 / 4) :: base64Char (b1 % 4 * 16 + b2 / 16) ::
      base64Char (b2 % 16 * 4 + b3 / 64) :: base64Char (b3 % 64) :: base64UrlNoPad rest
  | [b1, b2] => [base64Char (b1 / 4), base64Char (b1 % 4 * 16 + b2 / 16), base64Char (b2 % 16 * 4)]
  | [b1] => [base64Char (b1 / 4), base64Char (b1 % 4 * 16)]
  | [] => []

/-! ### SHA-256 (model of `crypto/sha256.Sum256`, FIPS 180-4) -/

/-- Truncate to a 32-bit word. -/
def w32 (x : Nat) : Nat := x % 4294967296

/-- Rotate a 32-bit word right by `n` (`1 ≤ n ≤ 31`). -/
def rotr (x n : Nat) : Nat := (x >>> n) + w32 (x <<< (32 - n))

/-- The 64 SHA-256 round constants (FIPS 180-4 §4.2.2, in decimal). -/
def sha256K : List Nat :=
  [1116352408, 1899447441, 3049323471, 3921009573, 961987163, 1508970993,
   2453635748, 2870763221, 3624381080, 310598401, 607225278, 1426881987,
   1925078388, 2162078206, 2614888103, 3248222580, 3835390401, 4022224774,
   264347078, 604807628, 770255983, 1249150122, 1555081692, 1996064986,
   2554220882, 2821834349, 2952996808, 3210313671, 3336571891, 3584528711,
   113926993, 338241895, 666307205, 773529912, 1294757372, 1396182291,
   1695183700, 1986661051, 2177026350, 2456956037, 2730485921, 2820302411,
   3259730800, 3345764771, 3516065817, 3600352804, 4094571909, 275423344,
   430227734, 506948616, 659060556, 883997877, 958139571, 1322822218,
   1537002063, 1747873779, 1955562222, 2024104815, 2227730452, 2361852424,
   2428436474, 2756734187, 3204031479, 3329325298]

/-- The SHA-256 initial hash value (FIPS 180-4 §5.3.3, in decimal). -/
def sha256H0 : List Nat :=
  [1779033703, 3144134277, 1013904242, 2773480762,
   1359893119, 2600822924, 528734635, 1541459225]

/-- Group the padded message bytes into 16 big-endian 32-bit words. -/
def blockWords : List Nat → List Nat
  | b1 :: b2 :: b3 :: b4 :: rest =>
    (b1 * 16777216 + b2 * 65536 + b3 * 256 + b4) :: blockWords rest
  | _ => []

/-- Extend the 16 message words by `fuel` further schedule words. -/
def sha256Extend : Nat → List Nat → List Nat
  | 0, acc => acc
  | n + 1, acc =>
    let t := acc.length
    let w15 := acc.getD (t - 15) 0
    let w2 := acc.getD (t - 2) 0
    let s0 := Nat.xor (rotr w15 7) (Nat.xor (rotr w15 18) (w15 >>> 3))
    let s1 := Nat.xor (rotr w2 17) (Nat.xor (rotr w2 19) (w2 >>> 10))
    sha256Extend n (acc ++ [w32 (acc.getD (t - 16) 0 + s0 + acc.getD (t - 7) 0 + s1)])

/-- One SHA-256 compression round on the state `[a,b,c,d,e,f,g,h]`, with
`kw` the sum of the round constant and schedule word. -/
def sha256Round (st : List Nat) (kw : Nat) : List Nat :=
  match st with
  | [a, b, c, d, e, f, g, h] =>
    let s1 := Nat.xor (rotr e 6) (Nat.xor (rotr e 11) (rotr e 25))
    let ch := Nat.xor (Nat.land e f) (Nat.land (4294967295 - e) g)
    let temp1 := w32 (h + s1 + ch + kw)
    let s0 := Nat.xor (rotr a 2) (Nat.xor (rotr a 13) (rotr a 22))
    let maj := Nat.xor (Nat.land a b) (Nat.xor (Nat.land a c) (Nat.land b c))
    let temp2 := w32 (s0 + maj)
    [w32 (temp1 + temp2), a, b, c, w32 (d + temp1), e, f, g]
  | _ => st

/-- Compress one 64-byte block into the running hash value. -/
def sha256Block (h : List Nat) (blk : List Nat) : List Nat :=
  let ws := sha256Extend 48 (blockWords blk)
  let st := (List.zip sha256K ws).foldl (fun st p => sha256Round st (w32 (p.1 + p.2))) h
  List.zipWith (fun x y => w32 (x + y)) h st

/-- Split the padded message into 64-byte blocks (fuel-based so that the
function evaluates inside the kernel). -/
def toBlocksFuel : Nat → List Nat → List (List Nat)
  | 0, _ => []
  | _, [] => []
  | fuel + 1, bs => bs.take 64 :: toBlocksFuel fuel (bs.drop 64)

/-- SHA-256 padding: `0x80`, zeros to 56 mod 64, the bit length as eight
big-endian bytes. -/
def sha256Pad (ms : List Nat) : List Nat :=
  let l := ms.length
  let zeros := (120 - (l + 1) % 64) % 64
  let bitLen := 8 * l
  ms ++ 128 :: List.replicate zeros 0
    ++ [bitLen / 72057594037927936 % 256, bitLen / 281474976710656 % 256,
        bitLen / 1099511627776 % 256, bitLen / 4294967296 % 256,
        bitLen / 16777216 % 256, bitLen / 65536 % 256, bitLen / 256 % 256, bitLen % 256]

/-- SHA-256 of a byte list, as 32 digest bytes. -/
def sha256Bytes (ms : List Nat) : List Nat :=
  let padded := sha256Pad ms
  let hh := (toBlocksFuel (padded.length + 1) padded).foldl sha256Block sha256H0
  hh.flatMap (fun w => [w / 16777216 % 256, w / 65536 % 256, w / 256 % 256, w % 256])

/-- `hex.EncodeToString`: lower-case hexadecimal of a byte list. -/
def hexEncode (bs : List Nat) : String :=
  ⟨bs.flatMap (fun b => [hexLowerDigit (b / 16 % 16), hexLowerDigit (b % 16)])⟩

/-! ### The signer package (`signer/msk_auth_token_provider.go`) -/

/-- `ActionType`: key for the action type in the request. -/
def ActionType : String := "Action"

/-- `ActionName`: the action name for connecting to a Kafka cluster. -/
def ActionName : String := "kafka-cluster:Connect"

/-- `SigningName`: the signing name for the Kafka cluster. -/
def SigningName : String := "kafka-cluster"

/-- `UserAgentKey`: key for the User-Agent parameter in the request. -/
def UserAgentKey : String := "User-Agent"

/-- `LibName`: the name of the library. -/
def LibName : String := "aws-msk-iam-sasl-signer-go"

/-- `ExpiresQueryKey`: key for the expiration time in the query parameters. -/
def ExpiresQueryKey : String := "X-Amz-Expires"

/-- `DefaultSessionName`: the default session name for assuming a role. -/
def DefaultSessionName : String := "MSKSASLDefaultSession"

/-- `DefaultExpirySeconds`: the default expiration time in seconds. -/
def DefaultExpirySeconds : Int := 900

/-- `fmt.Sprintf(endpointURLTemplate, region)` with
`endpointURLTemplate = "kafka.%s.amazonaws.com"`. -/
def endpointURLTemplate (region : String) : String :=
  "kafka." ++ region ++ ".amazonaws.com"

/-- Modelled from the spec: the library version constant (the `version`
variable lives in a file of this repository that is not among the sources;
the changelog's most recent release is 1.0.4). -/
def version : String := "1.0.4"

/-- Model of `runtime.Version()`: the executing Go runtime's version
string, an environment input (a representative value). -/
def runtimeVersion : String := "go1.20"

/-- `aws.Credentials`, restricted to the fields the signer reads. -/
structure Credentials where
  accessKeyId : String
  secretAccessKey : String
  sessionToken : String
deriving Repr, DecidableEq

/-- An `http.Request`, restricted to the fields the signer sets and the
presigner reads. -/
structure Request where
  method : String
  url : URL
deriving Repr, DecidableEq

/-- `calculateSHA256Hash`: SHA-256 of the input, hex encoded. -/
def calculateSHA256Hash (input : String) : String :=
  hexEncode (sha256Bytes (strBytes input))

/-- `base64Encode`: base64 (URL-safe alphabet, no padding) of the UTF-8
bytes of the signed URL string. -/
def base64Encode (signedURL : String) : String :=
  ⟨base64UrlNoPad (strBytes signedURL)⟩

/-- `buildRequest`: build the https request with query parameters in order
to sign.  `http.NewRequest` parses the rendered URL string, so the model
parses it back; the query is `url.Values.Encode` of the two parameters. -/
def buildRequest (expirySeconds : Int) (endpointURL : String) : Except GoError Request :=
  let query : Values := [(ActionType, [ActionName]), (ExpiresQueryKey, [toString expirySeconds])]
  let authURL : URL :=
    { scheme := "https", host := endpointURL, path := "/",
      rawQuery := valuesEncode query, fragment := "" }
  match urlParse (urlString authURL) with
  | .error e => .error e
  | .ok u => .ok { method := "GET", url := u }

/-- `addUserAgent`: parse the signed URL, set the `User-Agent` query
parameter to `LibName/version/runtime.Version()` joined with `/`,
re-encode the query, and render the URL; a parse failure yields `""` and a
wrapping error.  Returned as Go returns it: a `(string, error)` pair. -/
def addUserAgent (signedURL : String) : String × Option GoError :=
  match urlParse signedURL with
  | .error e => ("", some (.wrap "failed to parse signed url" e))
  | .ok parsedSignedURL =>
    let userAgent := String.intercalate "/" [LibName, version, runtimeVersion]
    let query := valuesSet (parseQuery parsedSignedURL.rawQuery) UserAgentKey userAgent
    (urlString { parsedSignedURL with rawQuery := valuesEncode query }, none)

/-- The transformation `addUserAgent` performs on the parsed URL record
(its body between `url.Parse` and `URL.String`). -/
def addUserAgentURL (u : URL) : URL :=
  { u with rawQuery :=
      valuesEncode (valuesSet (parseQuery u.rawQuery) UserAgentKey
        (String.intercalate "/" [LibName, version, runtimeVersion])) }

/-- The token-finalization tail of `constructAuthToken` (the spec's "Token
Finalizer"): add the user agent, then base64 encode, a failing
`addUserAgent` short-circuiting with the wrapped error and empty token. -/
def finalizeToken (signedURL : String) : String × Option GoError :=
  match addUserAgent signedURL with
  | (_, some e) => ("", some (.wrap "failed to add user agent to the signed url" e))
  | (signedURLWithUserAgent, none) => (base64Encode signedURLWithUserAgent, none)

/-- The external sig v4 presigner (`v4.Signer.PresignHTTP`), as an oracle:
given credentials, the request, the payload hash, the signing name and the
region, it returns the signed URL or fails.  (The signing timestamp is
internal to the call and not observed by any claim.) -/
abbrev Presigner := Credentials → Request → String → String → String → Except GoError String

/-- `signRequest`: invoke the presigner with the empty-payload hash, the
`kafka-cluster` signing name and the region. -/
def signRequest (presign : Presigner) (req : Request) (region : String)
    (credentials : Credentials) : Except GoError String :=
  presign credentials req (calculateSHA256Hash "") SigningName region

/-- `constructAuthToken`: build request → sign → add user agent → base64
encode, each failing stage short-circuiting with a wrapped,
stage-identifying error and an empty token. -/
def constructAuthToken (presign : Presigner) (region : String)
    (credentials : Credentials) : String × Option GoError :=
  let endpointURL := endpointURLTemplate region
  match buildRequest DefaultExpirySeconds endpointURL with
  | .error e => ("", some (.wrap "failed to build request for signing" e))
  | .ok req =>
    match signRequest presign req region credentials with
    | .error e => ("", some (.wrap "failed to sign request with aws sig v4" e))
    | .ok signedURL =>
      match addUserAgent signedURL with
      | (_, some e) => ("", some (.wrap "failed to add user agent to the signed url" e))
      | (signedURLWithUserAgent, none) => (base64Encode signedURLWithUserAgent, none)

/-- The options the signer passes to `config.LoadDefaultConfig`. -/
inductive ConfigOption where
  | withRegion (region : String)
  | withSharedConfigProfile (profile : String)
deriving Repr, DecidableEq

/-- The result of `aws.Config`, restricted to what the signer reads:
`cfg.Credentials.Retrieve(ctx)`'s outcome. -/
structure AwsConfig where
  credentials : Except GoError Credentials

/-- `config.LoadDefaultConfig` as an oracle over its option list. -/
abbrev ConfigLoader := List ConfigOption → Except GoError AwsConfig

/-- `loadCredentialsFromCredentialsProvider`: delegate to the provider's
`Retrieve` and pass its result through. -/
def loadCredentialsFromCredentialsProvider
    (credentialsProvider : Except GoError Credentials) : Except GoError Credentials :=
  credentialsProvider

/-- `loadDefaultCredentials`: load the SDK config for the region and
retrieve from its credentials provider. -/
def loadDefaultCredentials (loadConfig : ConfigLoader) (region : String) :
    Except GoError Credentials :=
  match loadConfig [.withRegion region] with
  | .error e => .error (.wrap "unable to load SDK config" e)
  | .ok cfg => loadCredentialsFromCredentialsProvider cfg.credentials

/-- `loadCredentialsFromProfile`: load the SDK config for the region pinned
to a named profile and retrieve from its credentials provider. -/
def loadCredentialsFromProfile (loadConfig : ConfigLoader) (region awsProfile : String) :
    Except GoError Credentials :=
  match loadConfig [.withRegion region, .withSharedConfigProfile awsProfile] with
  | .error e => .error (.wrap "unable to load SDK config" e)
  | .ok cfg => loadCredentialsFromCredentialsProvider cfg.credentials

/-- `sts.AssumeRoleInput`, restricted to the fields the signer sets. -/
structure AssumeRoleInput where
  roleArn : String
  roleSessionName : String
deriving Repr, DecidableEq

/-- The credentials carried by `sts.AssumeRoleOutput`. -/
structure AssumeRoleCredentials where
  accessKeyId : String
  secretAccessKey : String
  sessionToken : String
deriving Repr, DecidableEq

/-- An STS client's `AssumeRole` operation, as an oracle. -/
abbrev STSClient := AssumeRoleInput → Except GoError AssumeRoleCredentials

/-- `sts.NewFromConfig`, as an oracle from the loaded config. -/
abbrev STSFactory := AwsConfig → STSClient

/-- `loadCredentialsFromRoleArn`: load the SDK config for the region,
create an STS client from it, assume the role with the given session name,
and package the returned temporary credentials. -/
def loadCredentialsFromRoleArn (loadConfig : ConfigLoader) (newFromConfig : STSFactory)
    (region roleArn stsSessionName : String) : Except GoError Credentials :=
  match loadConfig [.withRegion region] with
  | .error e => .error (.wrap "unable to load SDK config" e)
  | .ok cfg =>
    let stsClient := newFromConfig cfg
    let assumeRoleInput : AssumeRoleInput := { roleArn := roleArn, roleSessionName := stsSessionName }
    match stsClient assumeRoleInput with
    | .error e => .error (.wrap ("unable to assume role, " ++ roleArn) e)
    | .ok out =>
      .ok { accessKeyId := out.accessKeyId, secretAccessKey := out.secretAccessKey,
            sessionToken := out.sessionToken }

/-- `GenerateAuthToken`: token from the default credentials provider chain. -/
def GenerateAuthToken (loadConfig : ConfigLoader) (presign : Presigner)
    (region : String) : String × Option GoError :=
  match loadDefaultCredentials loadConfig region with
  | .error e => ("", some (.wrap "failed to load credentials" e))
  | .ok credentials => constructAuthToken presign region credentials

/-- `GenerateAuthTokenFromProfile`: token from a named AWS profile. -/
def GenerateAuthTokenFromProfile (loadConfig : ConfigLoader) (presign : Presigner)
    (region awsProfile : String) : String × Option GoError :=
  match loadCredentialsFromProfile loadConfig region awsProfile with
  | .error e => ("", some (.wrap "failed to load credentials" e))
  | .ok credentials => constructAuthToken presign region credentials

/-- `GenerateAuthTokenFromRole`: token from an assumed role; an empty
session name is replaced by `DefaultSessionName` before resolution. -/
def GenerateAuthTokenFromRole (loadConfig : ConfigLoader) (newFromConfig : STSFactory)
    (presign : Presigner) (region roleArn stsSessionName : String) : String × Option GoError :=
  let stsSessionName := if stsSessionName = "" then DefaultSessionName else stsSessionName
  match loadCredentialsFromRoleArn loadConfig newFromConfig region roleArn stsSessionName with
  | .error e => ("", some (.wrap "failed to load credentials" e))
  | .ok credentials => constructAuthToken presign region credentials

/-- `GenerateAuthTokenFromCredentialsProvider`: token from a caller-supplied
credentials provider. -/
def GenerateAuthTokenFromCredentialsProvider (presign : Presigner) (region : String)
    (credentialsProvider : Except GoError Credentials) : String × Option GoError :=
  match loadCredentialsFromCredentialsProvider credentialsProvider with
  | .error e => ("", some (.wrap "failed to load credentials" e))
  | .ok credentials => constructAuthToken presign region credentials

/-! ### `SignerOptions` and its `Validate` method -/

/-- `SignerOptions`: input options for the signer library. -/
structure SignerOptions where
  region : Option String
  awsProfile : Option String
  roleARN : Option String
  stsSessionName : Option String
  stsRegion : Option String
  awsMaxRetries : Int
  awsMaxBackOffMs : Int
  awsCredentials : Option Credentials

/-- `(*SignerOptions).Validate`; the receiver is a possibly-nil pointer,
modelled as `Option SignerOptions`. -/
def Validate (so : Option SignerOptions) : Option GoError :=
  match so with
  | none => some (.errorf "region must be provided")
  | some so =>
    if so.region = none then some (.errorf "region must be provided")
    else
      let credentialsArgumentsCount :=
        (if so.awsProfile ≠ none then 1 else 0)
          + (if so.roleARN ≠ none then 1 else 0)
          + (if so.awsCredentials ≠ none then 1 else 0)
      if credentialsArgumentsCount > 1 then
        some (.errorf "please provide only one of AWS profile, Role ARN and AWS Credentials")
      else none

/-- The number of credential-source options set, as counted by `Validate`. -/
def credSourceCount (so : SignerOptions) : Nat :=
  (if so.awsProfile ≠ none then 1 else 0)
    + (if so.roleARN ≠ none then 1 else 0)
    + (if so.awsCredentials ≠ none then 1 else 0)

/-- Modelled from the spec: the region the options-based assume-role
strategy scopes its STS client to — the optional distinct STS region,
falling back to the main region when unset.  (The code consuming
`SignerOptions.STSRegion` is not among the sources; only the
`SignerOptions` declaration is.) -/
def stsClientRegion (region : String) (stsRegion : Option String) : String :=
  match stsRegion with
  | some r => r
  | none => region

/-- A DNS-style endpoint hostname: nonempty and made of ASCII letters,
digits, `.` and `-` (the shape of every `kafka.<region>.amazonaws.com`
endpoint the signer builds). -/
def isHostname (host : String) : Bool :=
  !host.data.isEmpty
    && host.data.all (fun c => isAsciiAlpha c || isAsciiDigit c || c = '.' || c = '-')

/-! ### Byte and escaping lemmas -/

set_option maxRecDepth 4000 in
theorem char_toNat_ofNat_lt : ∀ n : Nat, n < 256 → (Char.ofNat n).toNat = n := by decide

theorem unreservedChar_toNat {c : Char} (h : unreservedChar c = true) :
    (65 ≤ c.toNat ∧ c.toNat ≤ 90) ∨ (97 ≤ c.toNat ∧ c.toNat ≤ 122)
      ∨ (48 ≤ c.toNat ∧ c.toNat ≤ 57)
      ∨ c.toNat = 45 ∨ c.toNat = 95 ∨ c.toNat = 46 ∨ c.toNat = 126 := by
  simp only [unreservedChar, isAsciiAlpha, isAsciiDigit, Bool.or_eq_true, Bool.and_eq_true,
    decide_eq_true_eq] at h
  obtain h | rfl := h; swap
  · decide
  obtain h | rfl := h; swap
  · decide
  obtain h | rfl := h; swap
  · decide
  obtain h | rfl := h; swap
  · decide
  obtain h | h := h
  · obtain h | h := h
    · exact Or.inl h
    · exact Or.inr (Or.inl h)
  · exact Or.inr (Or.inr (Or.inl h))

theorem hexUpperDigit_toNat {n : Nat} (h : n < 16) :
    (hexUpperDigit n).toNat = if n < 10 then 48 + n else 55 + n := by
  interval_cases n <;> decide

/-- Every byte of an `escapeChar` output is an unreserved byte, `+`, `%`
or an upper-case hexadecimal digit — in particular printable ASCII and
none of the separator bytes `&`, `=`, `;`, `#`. -/
theorem escapeChar_mem_toNat {c c' : Char} (hc : c.toNat < 256) (h : c' ∈ escapeChar c) :
    (65 ≤ c'.toNat ∧ c'.toNat ≤ 90) ∨ (97 ≤ c'.toNat ∧ c'.toNat ≤ 122)
      ∨ (48 ≤ c'.toNat ∧ c'.toNat ≤ 57)
      ∨ c'.toNat = 45 ∨ c'.toNat = 95 ∨ c'.toNat = 46 ∨ c'.toNat = 126
      ∨ c'.toNat = 43 ∨ c'.toNat = 37 := by
  unfold escapeChar at h
  split at h
  · rcases List.mem_singleton.mp h with rfl
    rcases unreservedChar_toNat (by assumption) with h | h | h | h | h | h | h <;> simp [h]
  · split at h
    · rcases List.mem_singleton.mp h with rfl; simp
    · rcases List.mem_cons.mp h with rfl | h
      · simp
      rcases List.mem_cons.mp h with rfl | h
      · rw [hexUpperDigit_toNat (by omega)]
        split <;> omega
      rcases List.mem_singleton.mp h with rfl
      rw [hexUpperDigit_toNat (by omega)]
      split <;> omega

theorem escapeList_mem_toNat {cs : List Char} (hcs : ∀ c ∈ cs, c.toNat < 256)
    {c' : Char} (h : c' ∈ escapeList cs) :
    (65 ≤ c'.toNat ∧ c'.toNat ≤ 90) ∨ (97 ≤ c'.toNat ∧ c'.toNat ≤ 122)
      ∨ (48 ≤ c'.toNat ∧ c'.toNat ≤ 57)
      ∨ c'.toNat = 45 ∨ c'.toNat = 95 ∨ c'.toNat = 46 ∨ c'.toNat = 126
      ∨ c'.toNat = 43 ∨ c'.toNat = 37 := by
  rcases List.mem_flatMap.mp h with ⟨c, hc, hmem⟩
  exact escapeChar_mem_toNat (hcs c hc) hmem

theorem hexVal_hexUpperDigit {n : Nat} (h : n < 16) :
    hexVal (hexUpperDigit n) = some n := by
  interval_cases n <;> decide

theorem unescapeList_cons_other {c : Char} (rest : List Char) (h1 : c ≠ '%') (h2 : c ≠ '+') :
    unescapeList (c :: rest) = (unescapeList rest).map (fun ds => c :: ds) := by
  rw [unescapeList.eq_def]
  simp [h1, h2]

theorem unescapeList_cons_plus (rest : List Char) :
    unescapeList ('+' :: rest) = (unescapeList rest).map (fun ds => ' ' :: ds) := by
  rw [unescapeList.eq_def]
  simp

theorem unescapeList_cons_pct {a b : Char} (rest : List Char) {ha hb : Nat}
    (h1 : hexVal a = some ha) (h2 : hexVal b = some hb) :
    unescapeList ('%' :: a :: b :: rest) =
      (unescapeList rest).map (fun ds => Char.ofNat (16 * ha + hb) :: ds) := by
  rw [unescapeList.eq_def]
  simp [h1, h2]

theorem unescapeList_escapeChar {c : Char} (hc : c.toNat < 256) (rest : List Char)
    (ih : unescapeList (escapeList rest) = .ok rest) :
    unescapeList (escapeChar c ++ escapeList rest) = .ok (c :: rest) := by
  have h37 : ('%' : Char).toNat = 37 := by decide
  have h43 : ('+' : Char).toNat = 43 := by decide
  unfold escapeChar
  split
  · rename_i hu
    have hspec := unreservedChar_toNat hu
    have hne1 : c ≠ '%' := by intro hEq; rw [hEq, h37] at hspec; omega
    have hne2 : c ≠ '+' := by intro hEq; rw [hEq, h43] at hspec; omega
    rw [List.singleton_append, unescapeList_cons_other _ hne1 hne2, ih]
    rfl
  · split
    · rename_i hsp
      subst hsp
      rw [List.singleton_append, unescapeList_cons_plus, ih]
      rfl
    · rw [List.cons_append, List.cons_append, List.cons_append, List.nil_append,
        unescapeList_cons_pct _ (hexVal_hexUpperDigit (by omega))
          (hexVal_hexUpperDigit (Nat.mod_lt _ (by omega))), ih]
      have h16 : 16 * (c.toNat / 16) + c.toNat % 16 = c.toNat := by omega
      rw [h16, Char.ofNat_toNat]
      rfl

/-- Percent-encoding round-trips on byte lists: unescaping the escape of
`cs` gives back `cs`. -/
theorem unescapeList_escapeList {cs : List Char} (hcs : ∀ c ∈ cs, c.toNat < 256) :
    unescapeList (escapeList cs) = .ok cs := by
  induction cs with
  | nil => rfl
  | cons c rest ih =>
    have : escapeList (c :: rest) = escapeChar c ++ escapeList rest := by
      simp [escapeList]
    rw [this]
    exact unescapeList_escapeChar (hcs c (List.mem_cons_self _ _)) rest
      (ih (fun x hx => hcs x (List.mem_cons_of_mem _ hx)))

theorem except_map_ok {α β ε : Type} {f : α → β} {x : Except ε α} {b : β}
    (h : x.map f = .ok b) : ∃ a, x = .ok a ∧ b = f a := by
  cases x with
  | error e => simp [Except.map] at h
  | ok a =>
    refine ⟨a, rfl, ?_⟩
    simpa [Except.map] using h.symm

theorem hexVal_lt {c : Char} {n : Nat} (h : hexVal c = some n) : n < 16 := by
  unfold hexVal at h
  split_ifs at h <;> simp_all <;> omega

/-- Bytes produced by `unescapeList` stay below 256 when the input bytes
are below 256. -/
theorem unescapeList_mem_lt (cs : List Char) (hcs : ∀ c ∈ cs, c.toNat < 256)
    (ds : List Char) (h : unescapeList cs = .ok ds) : ∀ d ∈ ds, d.toNat < 256 := by
  match cs, hcs, h with
  | [], _, h =>
    rw [unescapeList.eq_def] at h
    cases h
    intro d hd
    cases hd
  | c :: rest, hcs, h =>
    by_cases hc : c = '%'
    · subst hc
      match rest, hcs, h with
      | [], _, h => rw [unescapeList.eq_def] at h; simp at h
      | [a], _, h => rw [unescapeList.eq_def] at h; simp at h
      | a :: b :: rest', hcs, h =>
        cases h1 : hexVal a with
        | none => rw [unescapeList.eq_def] at h; simp [h1] at h
        | some ha =>
          cases h2 : hexVal b with
          | none => rw [unescapeList.eq_def] at h; simp [h1, h2] at h
          | some hb =>
            rw [unescapeList_cons_pct rest' h1 h2] at h
            obtain ⟨ds', h3, rfl⟩ := except_map_ok h
            intro d hd
            rcases List.mem_cons.mp hd with rfl | hd
            · rw [char_toNat_ofNat_lt (16 * ha + hb)
                (by have := hexVal_lt h1; have := hexVal_lt h2; omega)]
              have := hexVal_lt h1
              have := hexVal_lt h2
              omega
            · exact unescapeList_mem_lt rest'
                (fun x hx => hcs x (by simp [hx])) ds' h3 d hd
    · by_cases hp : c = '+'
      · subst hp
        rw [unescapeList_cons_plus rest] at h
        obtain ⟨ds', h3, rfl⟩ := except_map_ok h
        intro d hd
        rcases List.mem_cons.mp hd with rfl | hd
        · decide
        · exact unescapeList_mem_lt rest
            (fun x hx => hcs x (List.mem_cons_of_mem _ hx)) ds' h3 d hd
      · rw [unescapeList_cons_other rest hc hp] at h
        obtain ⟨ds', h3, rfl⟩ := except_map_ok h
        intro d hd
        rcases List.mem_cons.mp hd with rfl | hd
        · exact hcs d (List.mem_cons_self _ _)
        · exact unescapeList_mem_lt rest
            (fun x hx => hcs x (List.mem_cons_of_mem _ hx)) ds' h3 d hd

/-! ### `splitSep` lemmas -/

theorem splitSep_ne_nil (sep : Char) (l : List Char) : splitSep sep l ≠ [] := by
  induction l with
  | nil => simp [splitSep]
  | cons c rest ih =>
    simp only [splitSep]
    split
    · simp
    · match h : splitSep sep rest with
      | [] => simp
      | s :: ss => simp

theorem splitSep_cons (sep c : Char) (rest : List Char) :
    splitSep sep (c :: rest) =
      if c = sep then [] :: splitSep sep rest
      else
        match splitSep sep rest with
        | s :: ss => (c :: s) :: ss
        | [] => [[c]] := rfl

theorem splitSep_no_sep (sep : Char) (l : List Char) (h : ∀ c ∈ l, c ≠ sep) :
    splitSep sep l = [l] := by
  induction l with
  | nil => rfl
  | cons c rest ih =>
    have hc : c ≠ sep := h c (List.mem_cons_self _ _)
    have hr : splitSep sep rest = [rest] := ih (fun x hx => h x (List.mem_cons_of_mem _ hx))
    rw [splitSep_cons, if_neg hc, hr]

theorem splitSep_append (sep : Char) (l1 l2 : List Char) (h : ∀ c ∈ l1, c ≠ sep) :
    splitSep sep (l1 ++ sep :: l2) = l1 :: splitSep sep l2 := by
  induction l1 with
  | nil => simp [splitSep_cons]
  | cons c rest ih =>
    have hc : c ≠ sep := h c (List.mem_cons_self _ _)
    have hr := ih (fun x hx => h x (List.mem_cons_of_mem _ hx))
    rw [List.cons_append, splitSep_cons, if_neg hc, hr]

theorem mem_of_mem_splitSep {sep : Char} {l part : List Char}
    (hp : part ∈ splitSep sep l) {c : Char} (hc : c ∈ part) : c ∈ l := by
  induction l generalizing part with
  | nil =>
    simp [splitSep] at hp
    subst hp
    cases hc
  | cons d rest ih =>
    rw [splitSep_cons] at hp
    split at hp
    · rcases List.mem_cons.mp hp with rfl | h
      · cases hc
      · exact List.mem_cons_of_mem _ (ih h hc)
    · cases hr : splitSep sep rest with
      | nil => exact absurd hr (splitSep_ne_nil sep rest)
      | cons s ss =>
        rw [hr] at hp
        simp only at hp
        rcases List.mem_cons.mp hp with rfl | h
        · rcases List.mem_cons.mp hc with rfl | h2
          · exact List.mem_cons_self _ _
          · exact List.mem_cons_of_mem _ (ih (by rw [hr]; exact List.mem_cons_self _ _) h2)
        · exact List.mem_cons_of_mem _ (ih (by rw [hr]; exact List.mem_cons_of_mem _ h) hc)

/-! ### `takeWhile` / `dropWhile` splitting lemmas -/

theorem takeWhile_append_stop {p : Char → Bool} {l1 : List Char} (c0 : Char) (l2 : List Char)
    (h1 : ∀ c ∈ l1, p c = true) (h0 : p c0 = false) :
    (l1 ++ c0 :: l2).takeWhile p = l1 := by
  induction l1 with
  | nil => simp [List.takeWhile, h0]
  | cons c rest ih =>
    have hc : p c = true := h1 c (List.mem_cons_self _ _)
    rw [List.cons_append, List.takeWhile_cons, if_pos hc,
      ih (fun x hx => h1 x (List.mem_cons_of_mem _ hx))]

theorem dropWhile_append_stop {p : Char → Bool} {l1 : List Char} (c0 : Char) (l2 : List Char)
    (h1 : ∀ c ∈ l1, p c = true) (h0 : p c0 = false) :
    (l1 ++ c0 :: l2).dropWhile p = c0 :: l2 := by
  induction l1 with
  | nil => simp [List.dropWhile, h0]
  | cons c rest ih =>
    have hc : p c = true := h1 c (List.mem_cons_self _ _)
    rw [List.cons_append, List.dropWhile_cons, if_pos hc]
    exact ih (fun x hx => h1 x (List.mem_cons_of_mem _ hx))

theorem takeWhile_all {p : Char → Bool} {l : List Char} (h : ∀ c ∈ l, p c = true) :
    l.takeWhile p = l :=
  List.takeWhile_eq_self_iff.mpr h

theorem dropWhile_all {p : Char → Bool} {l : List Char} (h : ∀ c ∈ l, p c = true) :
    l.dropWhile p = [] :=
  List.dropWhile_eq_nil_iff.mpr h

/-! ### `Values` lemmas -/

theorem valuesAppend_fresh {q : Values} {k : String} (v : String) (h : k ∉ valuesKeys q) :
    valuesAppend q k v = q ++ [(k, [v])] := by
  induction q with
  | nil => rfl
  | cons e rest ih =>
    have hk : e.1 ≠ k := by
      intro hEq
      exact h (by simp [valuesKeys, hEq])
    obtain ⟨k', vs⟩ := e
    simp only [valuesAppend, if_neg hk, List.cons_append, List.cons.injEq, true_and]
    exact ih (fun hm => h (List.mem_cons_of_mem _ hm))

theorem valuesAppend_last {acc : Values} {k : String} (done : List String) (v : String)
    (h : k ∉ valuesKeys acc) :
    valuesAppend (acc ++ [(k, done)]) k v = acc ++ [(k, done ++ [v])] := by
  induction acc with
  | nil => simp [valuesAppend]
  | cons e rest ih =>
    have hk : e.1 ≠ k := by
      intro hEq
      exact h (by simp [valuesKeys, hEq])
    obtain ⟨k', vs⟩ := e
    simp only [List.cons_append, valuesAppend, if_neg hk, List.cons.injEq, true_and]
    exact ih (fun hm => h (List.mem_cons_of_mem _ hm))

theorem keys_valuesAppend_mem {q : Values} {k : String} (v : String) (h : k ∈ valuesKeys q) :
    valuesKeys (valuesAppend q k v) = valuesKeys q := by
  induction q with
  | nil => simp [valuesKeys] at h
  | cons e rest ih =>
    obtain ⟨k', vs⟩ := e
    by_cases hk : k' = k
    · simp [valuesAppend, hk, valuesKeys]
    · rcases List.mem_cons.mp h with hEq | hmem
      · exact absurd hEq.symm hk
      · simp only [valuesAppend, if_neg hk, valuesKeys, List.map_cons, List.cons.injEq, true_and]
        exact ih hmem

theorem keys_valuesAppend_not_mem {q : Values} {k : String} (v : String) (h : k ∉ valuesKeys q) :
    valuesKeys (valuesAppend q k v) = valuesKeys q ++ [k] := by
  rw [valuesAppend_fresh v h]
  simp [valuesKeys]

theorem mem_valuesAppend {q : Values} {k v : String} {e : String × List String}
    (h : e ∈ valuesAppend q k v) :
    e ∈ q ∨ e = (k, [v]) ∨ ∃ vs, (e.1, vs) ∈ q ∧ e = (e.1, vs ++ [v]) := by
  induction q with
  | nil =>
    simp [valuesAppend] at h
    right; left; exact h
  | cons e0 rest ih =>
    obtain ⟨k', vs⟩ := e0
    by_cases hk : k' = k
    · simp only [valuesAppend, if_pos hk] at h
      rcases List.mem_cons.mp h with rfl | h
      · right; right
        exact ⟨vs, List.mem_cons_self _ _, rfl⟩
      · left; exact List.mem_cons_of_mem _ h
    · simp only [valuesAppend, if_neg hk] at h
      rcases List.mem_cons.mp h with rfl | h
      · left; exact List.mem_cons_self _ _
      · rcases ih h with h2 | h2 | ⟨vs2, hmem, hEq⟩
        · left; exact List.mem_cons_of_mem _ h2
        · right; left; exact h2
        · right; right; exact ⟨vs2, List.mem_cons_of_mem _ hmem, hEq⟩

/-! ### `valuesSet` lemmas -/

theorem valuesGetAll_nil (k : String) : valuesGetAll [] k = [] := rfl

theorem valuesGetAll_cons (e : String × List String) (q : Values) (k : String) :
    valuesGetAll (e :: q) k = if e.1 = k then e.2 else valuesGetAll q k := by
  unfold valuesGetAll
  rw [List.find?_cons]
  by_cases h : e.1 = k
  · simp [h]
  · simp [h]

theorem valuesGetAll_set_self (q : Values) (k v : String) :
    valuesGetAll (valuesSet q k v) k = [v] := by
  induction q with
  | nil => simp [valuesSet, valuesGetAll_cons]
  | cons e rest ih =>
    obtain ⟨k', vs⟩ := e
    by_cases hk : k' = k
    · simp [valuesSet, hk, valuesGetAll_cons]
    · simp only [valuesSet, if_neg hk]
      rw [valuesGetAll_cons]
      simp only [if_neg hk]
      exact ih

theorem valuesGetAll_set_ne (q : Values) (k v : String) {k' : String} (h : k' ≠ k) :
    valuesGetAll (valuesSet q k v) k' = valuesGetAll q k' := by
  have hkk : ¬ (k = k') := fun hEq => h hEq.symm
  induction q with
  | nil =>
    rw [show valuesSet [] k v = [(k, [v])] from rfl, valuesGetAll_cons, if_neg hkk]
  | cons e rest ih =>
    obtain ⟨k0, vs⟩ := e
    by_cases hk : k0 = k
    · have hstep : valuesSet ((k0, vs) :: rest) k v = (k0, [v]) :: rest := by
        simp [valuesSet, hk]
      have hne : ¬ (k0 = k') := by rw [hk]; exact hkk
      rw [hstep, valuesGetAll_cons, valuesGetAll_cons, if_neg hne, if_neg hne]
    · have hstep : valuesSet ((k0, vs) :: rest) k v = (k0, vs) :: valuesSet rest k v := by
        simp [valuesSet, hk]
      rw [hstep, valuesGetAll_cons, valuesGetAll_cons, ih]

theorem keys_valuesSet_mem {q : Values} {k : String} (v : String) (h : k ∈ valuesKeys q) :
    valuesKeys (valuesSet q k v) = valuesKeys q := by
  induction q with
  | nil => simp [valuesKeys] at h
  | cons e rest ih =>
    obtain ⟨k', vs⟩ := e
    by_cases hk : k' = k
    · simp [valuesSet, hk, valuesKeys]
    · rcases List.mem_cons.mp h with hEq | hmem
      · exact absurd hEq.symm hk
      · simp only [valuesSet, if_neg hk, valuesKeys, List.map_cons, List.cons.injEq, true_and]
        exact ih hmem

theorem keys_valuesSet_not_mem {q : Values} {k : String} (v : String) (h : k ∉ valuesKeys q) :
    valuesKeys (valuesSet q k v) = valuesKeys q ++ [k] := by
  induction q with
  | nil => rfl
  | cons e rest ih =>
    obtain ⟨k', vs⟩ := e
    have hk : k' ≠ k := by
      intro hEq
      exact h (by simp [valuesKeys, hEq])
    simp only [valuesSet, if_neg hk, valuesKeys, List.map_cons, List.cons_append,
      List.cons.injEq, true_and]
    exact ih (fun hm => h (List.mem_cons_of_mem _ hm))

theorem mem_valuesSet {q : Values} {k v : String} {e : String × List String}
    (h : e ∈ valuesSet q k v) : e ∈ q ∨ e = (k, [v]) := by
  induction q with
  | nil =>
    simp [valuesSet] at h
    right; exact h
  | cons e0 rest ih =>
    obtain ⟨k', vs⟩ := e0
    by_cases hk : k' = k
    · simp only [valuesSet, if_pos hk] at h
      rcases List.mem_cons.mp h with rfl | h
      · right; rw [hk]
      · left; exact List.mem_cons_of_mem _ h
    · simp only [valuesSet, if_neg hk] at h
      rcases List.mem_cons.mp h with rfl | h
      · left; exact List.mem_cons_self _ _
      · rcases ih h with h2 | h2
        · left; exact List.mem_cons_of_mem _ h2
        · right; exact h2

theorem valuesWF_set {q : Values} (hwf : ValuesWF q) {k v : String}
    (hk : ∀ c ∈ k.data, c.toNat < 256) (hv : ∀ c ∈ v.data, c.toNat < 256) :
    ValuesWF (valuesSet q k v) := by
  obtain ⟨hnd, hne, hlt⟩ := hwf
  refine ⟨?_, ?_, ?_⟩
  · by_cases hmem : k ∈ valuesKeys q
    · rw [keys_valuesSet_mem v hmem]; exact hnd
    · rw [keys_valuesSet_not_mem v hmem]
      simp only [List.nodup_append, List.nodup_singleton, true_and]
      exact ⟨hnd, by simpa using hmem⟩
  · intro e he
    rcases mem_valuesSet he with h | rfl
    · exact hne e h
    · simp
  · intro e he
    rcases mem_valuesSet he with h | rfl
    · exact hlt e h
    · exact ⟨hk, by simpa using hv⟩

/-! ### Parsing an encoded query -/

theorem escapeList_toNat_ne {cs : List Char} (hcs : ∀ c ∈ cs, c.toNat < 256)
    {c' : Char} (h : c' ∈ escapeList cs) (n : Nat)
    (hn : n = 38 ∨ n = 61 ∨ n = 59 ∨ n = 35 ∨ n = 58 ∨ n = 47 ∨ n = 63 ∨ n = 32) :
    c'.toNat ≠ n := by
  have := escapeList_mem_toNat hcs h
  omega

/-- `parsePair` on the encoded segment `escape(k) ++ "=" ++ escape(v)`
appends `v` under `k`, exactly as Go's `ParseQuery` loop does. -/
theorem parsePair_seg (q : Values) {k v : String}
    (hk : ∀ c ∈ k.data, c.toNat < 256) (hv : ∀ c ∈ v.data, c.toNat < 256) :
    parsePair q (escapeList k.data ++ '=' :: escapeList v.data) = valuesAppend q k v := by
  have h59 : (';' : Char).toNat = 59 := by decide
  have h61 : ('=' : Char).toNat = 61 := by decide
  have hseg_ne : escapeList k.data ++ '=' :: escapeList v.data ≠ [] := by simp
  have hsemi : ';' ∉ escapeList k.data ++ '=' :: escapeList v.data := by
    intro hmem
    rcases List.mem_append.mp hmem with hm | hm
    · exact escapeList_toNat_ne hk hm 59 (by omega) h59
    · rcases List.mem_cons.mp hm with hEq | hm
      · exact absurd hEq (by decide)
      · exact escapeList_toNat_ne hv hm 59 (by omega) h59
  have hkne : ∀ c ∈ escapeList k.data, (fun c => decide (c ≠ '=')) c = true := by
    intro c hc
    simp only [decide_eq_true_eq]
    intro hEq
    exact escapeList_toNat_ne hk hc 61 (by omega) (hEq ▸ h61)
  have h0 : (fun c => decide (c ≠ '=')) '=' = false := by simp
  unfold parsePair
  rw [if_neg hseg_ne, if_neg hsemi]
  simp only [takeWhile_append_stop '=' (escapeList v.data) hkne h0,
    dropWhile_append_stop '=' (escapeList v.data) hkne h0, List.drop_succ_cons, List.drop_zero]
  rw [unescapeList_escapeList hk, unescapeList_escapeList hv]

theorem foldl_parsePair_group {k : String} (hk : ∀ c ∈ k.data, c.toNat < 256)
    (vs : List String) (hvs : ∀ v ∈ vs, ∀ c ∈ (v : String).data, c.toNat < 256)
    (acc : Values) (done : List String) (hfresh : k ∉ valuesKeys acc) :
    List.foldl parsePair (acc ++ [(k, done)])
      (vs.map (fun v => escapeList k.data ++ '=' :: escapeList v.data))
      = acc ++ [(k, done ++ vs)] := by
  induction vs generalizing done with
  | nil => simp
  | cons v rest ih =>
    rw [List.map_cons, List.foldl_cons,
      parsePair_seg _ hk (hvs v (List.mem_cons_self _ _)),
      valuesAppend_last done v hfresh,
      ih (fun x hx => hvs x (List.mem_cons_of_mem _ hx)) (done ++ [v])]
    simp

theorem foldl_parsePair_entries (entries : Values) (acc : Values)
    (hfresh : ∀ e ∈ entries, e.1 ∉ valuesKeys acc)
    (hnd : (valuesKeys entries).Nodup)
    (hne : ∀ e ∈ entries, e.2 ≠ [])
    (hlt : ∀ e ∈ entries, (∀ c ∈ (e.1 : String).data, c.toNat < 256)
      ∧ ∀ v ∈ e.2, ∀ c ∈ (v : String).data, c.toNat < 256) :
    List.foldl parsePair acc
      (entries.flatMap (fun kv => kv.2.map (fun v => escapeList kv.1.data ++ '=' :: escapeList v.data)))
      = acc ++ entries := by
  induction entries generalizing acc with
  | nil => simp
  | cons e rest ih =>
    obtain ⟨k, vs⟩ := e
    rw [List.flatMap_cons, List.foldl_append]
    have hk256 := (hlt _ (List.mem_cons_self _ _)).1
    have hv256 := (hlt _ (List.mem_cons_self _ _)).2
    have hfreshk : k ∉ valuesKeys acc := hfresh _ (List.mem_cons_self _ _)
    match vs, hne (k, vs) (List.mem_cons_self _ _), hv256 with
    | v0 :: vs', _, hv256 =>
      have h1 : List.foldl parsePair acc
          ((v0 :: vs').map (fun v => escapeList k.data ++ '=' :: escapeList v.data))
          = acc ++ [(k, v0 :: vs')] := by
        rw [List.map_cons, List.foldl_cons,
          parsePair_seg _ hk256 (hv256 v0 (List.mem_cons_self _ _)),
          valuesAppend_fresh v0 hfreshk,
          foldl_parsePair_group hk256 vs'
            (fun x hx => hv256 x (List.mem_cons_of_mem _ hx)) acc [v0] hfreshk]
        simp
      rw [h1, ih]
      · simp
      · intro e2 he2
        have hkeys : valuesKeys (acc ++ [(k, v0 :: vs')]) = valuesKeys acc ++ [k] := by
          simp [valuesKeys]
        rw [hkeys]
        intro hmem
        rcases List.mem_append.mp hmem with hm | hm
        · exact hfresh e2 (List.mem_cons_of_mem _ he2) hm
        · have hek : e2.1 = k := by simpa using hm
          have : k ∈ valuesKeys rest := by
            rw [← hek]
            exact List.mem_map_of_mem Prod.fst he2
          have hnd2 : k ∉ valuesKeys rest := by
            have := hnd
            simp only [valuesKeys, List.map_cons, List.nodup_cons] at this
            exact this.1
          exact hnd2 this
      · have := hnd
        simp only [valuesKeys, List.map_cons, List.nodup_cons] at this
        exact this.2
      · exact fun e2 he2 => hne e2 (List.mem_cons_of_mem _ he2)
      · exact fun e2 he2 => hlt e2 (List.mem_cons_of_mem _ he2)

theorem splitSep_joinAmp (segs : List (List Char)) (hne : segs ≠ [])
    (hamp : ∀ s ∈ segs, ∀ c ∈ s, c ≠ '&') :
    splitSep '&' (joinAmp segs) = segs := by
  induction segs with
  | nil => cases hne rfl
  | cons s rest ih =>
    cases rest with
    | nil => exact splitSep_no_sep '&' s (hamp s (List.mem_cons_self _ _))
    | cons s2 r2 =>
      rw [show joinAmp (s :: s2 :: r2) = s ++ '&' :: joinAmp (s2 :: r2) from rfl,
        splitSep_append '&' s _ (hamp s (List.mem_cons_self _ _)),
        ih (by simp) (fun x hx => hamp x (List.mem_cons_of_mem _ hx))]

theorem sortPairs_perm (q : Values) : (sortPairs q).Perm q :=
  List.perm_insertionSort _ q

theorem valuesWF_sortPairs {q : Values} (h : ValuesWF q) : ValuesWF (sortPairs q) := by
  obtain ⟨hnd, hne, hlt⟩ := h
  have hperm := sortPairs_perm q
  refine ⟨?_, ?_, ?_⟩
  · exact ((hperm.map Prod.fst).symm.nodup hnd : _)
  · exact fun e he => hne e (hperm.mem_iff.mp he)
  · exact fun e he => hlt e (hperm.mem_iff.mp he)

/-- Parsing the encoding of a well-formed `Values` map recovers exactly its
entries, in sorted key order. -/
theorem parseQuery_valuesEncode {q : Values} (hwf : ValuesWF q) :
    parseQuery (valuesEncode q) = sortPairs q := by
  obtain ⟨hnd, hne, hlt⟩ := valuesWF_sortPairs hwf
  unfold parseQuery valuesEncode
  cases hq : sortPairs q with
  | nil =>
    rw [show (String.mk (joinAmp (encodeSegs q))).data = joinAmp (encodeSegs q) from rfl]
    unfold encodeSegs
    rw [hq]
    rfl
  | cons e0 r0 =>
    rw [show (String.mk (joinAmp (encodeSegs q))).data = joinAmp (encodeSegs q) from rfl]
    have hsegs_amp : ∀ s ∈ encodeSegs q, ∀ c ∈ s, c ≠ '&' := by
      intro s hs c hc
      rcases List.mem_flatMap.mp hs with ⟨kv, hkv, hmap⟩
      rcases List.mem_map.mp hmap with ⟨v, hvv, rfl⟩
      have h38 : ('&' : Char).toNat = 38 := by decide
      rcases List.mem_append.mp hc with hm | hm
      · exact fun hEq => escapeList_toNat_ne (hlt kv hkv).1 hm 38 (by omega) (hEq ▸ h38)
      · rcases List.mem_cons.mp hm with hEq | hm
        · exact hEq ▸ (by decide)
        · exact fun hEq =>
            escapeList_toNat_ne ((hlt kv hkv).2 v hvv) hm 38 (by omega) (hEq ▸ h38)
    have hsegs_ne : encodeSegs q ≠ [] := by
      unfold encodeSegs
      rw [hq, List.flatMap_cons]
      match hv : e0.2, hne e0 (by rw [hq]; exact List.mem_cons_self _ _) with
      | v0 :: vs', _ => simp
    rw [splitSep_joinAmp (encodeSegs q) hsegs_ne hsegs_amp]
    unfold encodeSegs
    rw [foldl_parsePair_entries (sortPairs q) [] (by simp [valuesKeys]) hnd hne hlt]
    simpa using hq

/-! ### `find?` under permutation with distinct keys -/

theorem find?_key_perm {q q' : Values} (hperm : q.Perm q') (k : String) :
    (valuesKeys q).Nodup → q.find? (fun e => e.1 = k) = q'.find? (fun e => e.1 = k) := by
  induction hperm with
  | nil => intro _; rfl
  | cons x h ih =>
    intro hnd
    rw [List.find?_cons, List.find?_cons]
    cases hx : (decide (x.1 = k)) with
    | true => rfl
    | false =>
      exact ih (by simpa [valuesKeys] using (List.nodup_cons.mp (by simpa [valuesKeys] using hnd)).2)
  | swap x y l =>
    intro hnd
    have hxy : y.1 ≠ x.1 := by
      simp only [valuesKeys, List.map_cons, List.nodup_cons, List.mem_cons] at hnd
      exact fun hEq => hnd.1 (Or.inl hEq)
    rw [List.find?_cons, List.find?_cons, List.find?_cons, List.find?_cons]
    cases hy : (decide (y.1 = k)) with
    | true =>
      cases hx : (decide (x.1 = k)) with
      | true =>
        exact absurd (of_decide_eq_true hy ▸ of_decide_eq_true hx) hxy.symm
      | false => rfl
    | false =>
      cases hx : (decide (x.1 = k)) with
      | true => rfl
      | false => rfl
  | trans hab hbc ih1 ih2 =>
    intro hnd
    rw [ih1 hnd, ih2 ((hab.map Prod.fst).nodup hnd)]

theorem valuesGetAll_sortPairs (q : Values) (hnd : (valuesKeys q).Nodup) (k : String) :
    valuesGetAll (sortPairs q) k = valuesGetAll q k := by
  unfold valuesGetAll
  rw [find?_key_perm (sortPairs_perm q) k (((sortPairs_perm q).map Prod.fst).symm.nodup hnd)]

/-! ### Well-formedness of parsed queries -/

theorem valuesWF_nil : ValuesWF [] := by
  refine ⟨List.nodup_nil, ?_, ?_⟩ <;> intro e he <;> cases he

theorem valuesWF_append {acc : Values} (hwf : ValuesWF acc) {k v : String}
    (hk : ∀ c ∈ k.data, c.toNat < 256) (hv : ∀ c ∈ v.data, c.toNat < 256) :
    ValuesWF (valuesAppend acc k v) := by
  obtain ⟨hnd, hne, hlt⟩ := hwf
  refine ⟨?_, ?_, ?_⟩
  · by_cases hmem : k ∈ valuesKeys acc
    · rw [keys_valuesAppend_mem v hmem]; exact hnd
    · rw [keys_valuesAppend_not_mem v hmem]
      simp only [List.nodup_append, List.nodup_singleton, true_and]
      exact ⟨hnd, by simpa using hmem⟩
  · intro e he
    rcases mem_valuesAppend he with h | rfl | ⟨vs, hmem, hEq⟩
    · exact hne e h
    · simp
    · rw [hEq]; simp
  · intro e he
    rcases mem_valuesAppend he with h | rfl | ⟨vs, hmem, hEq⟩
    · exact hlt e h
    · exact ⟨hk, by simpa using hv⟩
    · rw [hEq]
      refine ⟨(hlt _ hmem).1, ?_⟩
      intro v2 hv2
      rcases List.mem_append.mp hv2 with hm | hm
      · exact (hlt _ hmem).2 v2 hm
      · rcases List.mem_singleton.mp hm with rfl
        exact hv

theorem valuesWF_parsePair {acc : Values} (hwf : ValuesWF acc) {seg : List Char}
    (hseg : ∀ c ∈ seg, c.toNat < 256) : ValuesWF (parsePair acc seg) := by
  unfold parsePair
  split
  · exact hwf
  split
  · exact hwf
  have hkmem : ∀ c ∈ seg.takeWhile (fun c => c ≠ '='), c.toNat < 256 :=
    fun c hc => hseg c ((List.takeWhile_sublist _).subset hc)
  have hvmem : ∀ c ∈ (seg.dropWhile (fun c => c ≠ '=')).drop 1, c.toNat < 256 :=
    fun c hc => hseg c ((List.dropWhile_sublist _).subset ((List.drop_sublist _ _).subset hc))
  split
  case _ k' v' h1 h2 =>
    exact valuesWF_append hwf
      (unescapeList_mem_lt _ hkmem _ h1) (unescapeList_mem_lt _ hvmem _ h2)
  case _ => exact hwf

theorem valuesWF_foldl_parsePair (segs : List (List Char)) :
    ∀ (acc : Values), ValuesWF acc → (∀ s ∈ segs, ∀ c ∈ s, c.toNat < 256) →
      ValuesWF (List.foldl parsePair acc segs) := by
  induction segs with
  | nil => intro acc hwf _; exact hwf
  | cons s rest ih =>
    intro acc hwf hsegs
    rw [List.foldl_cons]
    exact ih _ (valuesWF_parsePair hwf (hsegs s (List.mem_cons_self _ _)))
      (fun x hx => hsegs x (List.mem_cons_of_mem _ hx))

/-- The query map parsed from a byte string is well formed. -/
theorem valuesWF_parseQuery (s : String) (hs : ∀ c ∈ s.data, c.toNat < 256) :
    ValuesWF (parseQuery s) := by
  unfold parseQuery
  exact valuesWF_foldl_parsePair _ [] valuesWF_nil
    (fun part hp c hc => hs c (mem_of_mem_splitSep hp hc))

/-! ### Extraction from a successful `urlParse` -/

theorem urlParse_ok_chars {s : String} {u : URL} (h : urlParse s = .ok u) :
    ∀ c ∈ u.rawQuery.data, c.toNat < 256 := by
  simp only [urlParse] at h
  split at h
  · simp at h
  rename_i hall
  have hall2 : ∀ c ∈ s.data, urlChar c = true := by
    intro c hc
    have hx : s.data.all urlChar = true := by
      by_contra hcon
      exact hall (by simpa using hcon)
    exact (List.all_eq_true.mp hx) c hc
  split at h
  · simp at h
  rename_i head afterColon hdrop
  split at h
  · simp at h
  split at h
  · simp at h
  split at h
  case _ hostStart hostTail =>
    split at h
    · simp at h
    cases h
    intro c hc
    have hc2 : c ∈ List.drop 1 ((hostTail.dropWhile
        (fun c => decide (c ≠ '/') && decide (c ≠ '?'))).dropWhile
          (fun c => decide (c ≠ '?'))) := hc
    have hc3 : c ∈ hostTail :=
      (List.dropWhile_sublist _).subset
        ((List.dropWhile_sublist _).subset ((List.drop_sublist _ _).subset hc2))
    have hc5 : c ∈ s.data.takeWhile (fun c => decide (c ≠ '#')) := by
      have hx : c ∈ (s.data.takeWhile (fun c => decide (c ≠ '#'))).dropWhile
          (fun c => decide (c ≠ ':')) := by
        rw [hdrop]
        exact List.mem_cons_of_mem _
          (List.mem_cons_of_mem _ (List.mem_cons_of_mem _ hc3))
      exact (List.dropWhile_sublist _).subset hx
    have hc6 : c ∈ s.data := (List.takeWhile_sublist _).subset hc5
    have hu := hall2 c hc6
    unfold urlChar at hu
    simp only [Bool.and_eq_true, decide_eq_true_eq] at hu
    omega
  · simp at h

/-! ### `addUserAgent` lemmas -/

theorem addUserAgent_parse_ok {s : String} {u : URL} (h : urlParse s = .ok u) :
    addUserAgent s = (urlString (addUserAgentURL u), none) := by
  unfold addUserAgent addUserAgentURL
  rw [h]

theorem addUserAgent_parse_err {s : String} {e : GoError} (h : urlParse s = .error e) :
    addUserAgent s = ("", some (.wrap "failed to parse signed url" e)) := by
  unfold addUserAgent
  rw [h]

theorem addUserAgentURL_rawQuery {u : URL} (hq : ∀ c ∈ u.rawQuery.data, c.toNat < 256) :
    parseQuery (addUserAgentURL u).rawQuery
      = sortPairs (valuesSet (parseQuery u.rawQuery) UserAgentKey
          (String.intercalate "/" [LibName, version, runtimeVersion])) := by
  unfold addUserAgentURL
  exact parseQuery_valuesEncode
    (valuesWF_set (valuesWF_parseQuery _ hq) (by decide) (by decide))

theorem addUserAgentURL_getAll_ua {u : URL} (hq : ∀ c ∈ u.rawQuery.data, c.toNat < 256) :
    valuesGetAll (parseQuery (addUserAgentURL u).rawQuery) UserAgentKey
      = [String.intercalate "/" [LibName, version, runtimeVersion]] := by
  have hwf := valuesWF_set (valuesWF_parseQuery u.rawQuery hq)
    (k := UserAgentKey) (v := String.intercalate "/" [LibName, version, runtimeVersion])
    (by decide) (by decide)
  rw [addUserAgentURL_rawQuery hq, valuesGetAll_sortPairs _ hwf.1, valuesGetAll_set_self]

theorem addUserAgentURL_getAll_ne {u : URL} (hq : ∀ c ∈ u.rawQuery.data, c.toNat < 256)
    {k : String} (hk : k ≠ UserAgentKey) :
    valuesGetAll (parseQuery (addUserAgentURL u).rawQuery) k
      = valuesGetAll (parseQuery u.rawQuery) k := by
  have hwf := valuesWF_set (valuesWF_parseQuery u.rawQuery hq)
    (k := UserAgentKey) (v := String.intercalate "/" [LibName, version, runtimeVersion])
    (by decide) (by decide)
  rw [addUserAgentURL_rawQuery hq, valuesGetAll_sortPairs _ hwf.1,
    valuesGetAll_set_ne _ _ _ hk]

/-! ### Decimal rendering of the expiry (`strconv.FormatInt(_, 10)`) -/

theorem digitChar_isAsciiDigit {n : Nat} (h : n < 10) :
    isAsciiDigit (Nat.digitChar n) = true := by
  interval_cases n <;> decide

theorem toDigitsCore_digits (f : Nat) : ∀ (n : Nat) (ds : List Char),
    (∀ c ∈ ds, isAsciiDigit c = true) →
      ∀ c ∈ Nat.toDigitsCore 10 f n ds, isAsciiDigit c = true := by
  induction f with
  | zero =>
    intro n ds hds
    simpa [Nat.toDigitsCore] using hds
  | succ f ih =>
    intro n ds hds
    rw [Nat.toDigitsCore]
    have hd : isAsciiDigit ((n % 10).digitChar) = true :=
      digitChar_isAsciiDigit (Nat.mod_lt _ (by omega))
    have hds2 : ∀ c ∈ (n % 10).digitChar :: ds, isAsciiDigit c = true := by
      intro c hc
      rcases List.mem_cons.mp hc with rfl | hc
      · exact hd
      · exact hds c hc
    split
    · exact hds2
    · exact ih (n / 10) _ hds2

theorem natRepr_digits (n : Nat) : ∀ c ∈ (Nat.repr n).data, isAsciiDigit c = true := by
  intro c hc
  exact toDigitsCore_digits (n + 1) n [] (by intro c hc; cases hc) c hc

theorem isAsciiDigit_unreserved {c : Char} (h : isAsciiDigit c = true) :
    unreservedChar c = true := by
  unfold unreservedChar
  rw [h]
  simp

theorem intToString_unreserved (i : Int) :
    ∀ c ∈ (toString i).data, unreservedChar c = true := by
  intro c hc
  have hts : (toString i).data = (Int.repr i).data := rfl
  rw [hts] at hc
  cases i with
  | ofNat m =>
    exact isAsciiDigit_unreserved (natRepr_digits m c hc)
  | negSucc m =>
    rw [show Int.repr (Int.negSucc m) = "-" ++ Nat.repr (m + 1) from rfl,
      String.data_append] at hc
    rcases List.mem_append.mp hc with hm | hm
    · rcases List.mem_singleton.mp hm with rfl
      decide
    · exact isAsciiDigit_unreserved (natRepr_digits (m + 1) c hm)

theorem escapeList_of_unreserved {cs : List Char} (h : ∀ c ∈ cs, unreservedChar c = true) :
    escapeList cs = cs := by
  induction cs with
  | nil => rfl
  | cons c rest ih =>
    have hc : unreservedChar c = true := h c (List.mem_cons_self _ _)
    show escapeChar c ++ escapeList rest = c :: rest
    rw [show escapeChar c = [c] from by unfold escapeChar; rw [if_pos hc],
      ih (fun x hx => h x (List.mem_cons_of_mem _ hx))]
    rfl

/-! ### Parsing the URL the signer builds -/

theorem hostname_toNat {c : Char}
    (h : (isAsciiAlpha c || isAsciiDigit c || c = '.' || c = '-') = true) :
    (65 ≤ c.toNat ∧ c.toNat ≤ 90) ∨ (97 ≤ c.toNat ∧ c.toNat ≤ 122)
      ∨ (48 ≤ c.toNat ∧ c.toNat ≤ 57) ∨ c.toNat = 46 ∨ c.toNat = 45 := by
  simp only [isAsciiAlpha, isAsciiDigit, Bool.or_eq_true, Bool.and_eq_true,
    decide_eq_true_eq] at h
  obtain h | rfl := h; swap
  · decide
  obtain h | rfl := h; swap
  · decide
  obtain (h | h) | h := h
  · exact Or.inl h
  · exact Or.inr (Or.inl h)
  · exact Or.inr (Or.inr (Or.inl h))

theorem urlParse_https {s host rq : String}
    (hsdata : s.data = "https://".data ++ host.data ++ '/' :: '?' :: rq.data)
    (hh : isHostname host = true)
    (hrq : ∀ c ∈ rq.data, urlChar c = true ∧ c.toNat ≠ 35) :
    urlParse s = .ok ⟨"https", host, "/", rq, ""⟩ := by
  have hh2 : ∀ c ∈ host.data,
      (isAsciiAlpha c || isAsciiDigit c || c = '.' || c = '-') = true := by
    unfold isHostname at hh
    simp only [Bool.and_eq_true, List.all_eq_true] at hh
    exact hh.2
  have hhost := fun c hc => hostname_toNat (hh2 c hc)
  have hsplit : "https://".data ++ host.data ++ '/' :: '?' :: rq.data
      = "https".data ++ ':' :: ('/' :: '/' :: (host.data ++ '/' :: '?' :: rq.data)) := rfl
  have h35 : ('#' : Char).toNat = 35 := by decide
  -- every byte of the URL is acceptable
  have hall : ("https".data ++ ':' :: ('/' :: '/' ::
      (host.data ++ '/' :: '?' :: rq.data))).all urlChar = true := by
    rw [List.all_eq_true]
    intro c hc
    rcases List.mem_append.mp hc with hm | hm
    · simp only [List.mem_cons, List.not_mem_nil, or_false] at hm
      rcases hm with rfl | rfl | rfl | rfl | rfl <;> decide
    rcases List.mem_cons.mp hm with rfl | hm
    · decide
    rcases List.mem_cons.mp hm with rfl | hm
    · decide
    rcases List.mem_cons.mp hm with rfl | hm
    · decide
    rcases List.mem_append.mp hm with hm2 | hm2
    · have := hhost c hm2
      unfold urlChar
      simp only [Bool.and_eq_true, decide_eq_true_eq]
      omega
    rcases List.mem_cons.mp hm2 with rfl | hm2
    · decide
    rcases List.mem_cons.mp hm2 with rfl | hm2
    · decide
    · exact (hrq c hm2).1
  -- no byte is `#`
  have hnohash : ∀ c ∈ ("https".data ++ ':' :: ('/' :: '/' ::
      (host.data ++ '/' :: '?' :: rq.data))), (fun c => decide (c ≠ '#')) c = true := by
    intro c hc
    simp only [decide_eq_true_eq]
    rcases List.mem_append.mp hc with hm | hm
    · simp only [List.mem_cons, List.not_mem_nil, or_false] at hm
      rcases hm with rfl | rfl | rfl | rfl | rfl <;> decide
    rcases List.mem_cons.mp hm with rfl | hm
    · decide
    rcases List.mem_cons.mp hm with rfl | hm
    · decide
    rcases List.mem_cons.mp hm with rfl | hm
    · decide
    rcases List.mem_append.mp hm with hm2 | hm2
    · have := hhost c hm2
      intro hEq
      rw [hEq, h35] at this
      omega
    rcases List.mem_cons.mp hm2 with rfl | hm2
    · decide
    rcases List.mem_cons.mp hm2 with rfl | hm2
    · decide
    · intro hEq
      exact (hrq c hm2).2 (hEq ▸ h35)
  have hhttps : ∀ c ∈ ("https" : String).data, (fun c => decide (c ≠ ':')) c = true := by
    decide
  have hhostslash : ∀ c ∈ host.data,
      (fun c => decide (c ≠ '/') && decide (c ≠ '?')) c = true := by
    intro c hc
    have := hhost c hc
    simp only [Bool.and_eq_true, decide_eq_true_eq]
    constructor <;> intro hEq <;> rw [hEq] at this <;> simp at this
  have hhostall : host.data.all hostChar = true := by
    rw [List.all_eq_true]
    intro c hc
    have h2 := hh2 c hc
    unfold hostChar
    simp only [Bool.or_eq_true] at h2 ⊢
    tauto
  simp only [urlParse, hsdata, hsplit]
  rw [takeWhile_all hnohash, dropWhile_all hnohash,
    takeWhile_append_stop ':' _ hhttps (by decide),
    dropWhile_append_stop ':' _ hhttps (by decide)]
  rw [if_neg (not_not_intro hall)]
  simp only []
  rw [if_neg (show ¬(("https" : String).data = []) from by decide),
    if_neg (not_not_intro (show validScheme ("https" : String).data = true from by decide))]
  rw [takeWhile_append_stop '/' ('?' :: rq.data) hhostslash (by decide),
    dropWhile_append_stop '/' ('?' :: rq.data) hhostslash (by decide)]
  rw [if_neg (not_not_intro hhostall)]
  simp only [List.takeWhile_cons, List.dropWhile_cons]
  norm_num
  refine ⟨by decide, ?_, ?_⟩
  · rw [if_neg (show ¬('/' = '?') from by decide)]
  · rw [if_neg (show ¬('/' = '?') from by decide)]
    rfl

/-! ### Evaluating `buildRequest` -/

theorem valuesEncode_buildQuery (expirySeconds : Int) :
    valuesEncode [(ActionType, [ActionName]), (ExpiresQueryKey, [toString expirySeconds])]
      = "Action=kafka-cluster%3AConnect&X-Amz-Expires=" ++ toString expirySeconds := by
  have hsort : sortPairs [(ActionType, [ActionName]), (ExpiresQueryKey, [toString expirySeconds])]
      = [(ActionType, [ActionName]), (ExpiresQueryKey, [toString expirySeconds])] := by
    simp [sortPairs, List.insertionSort, List.orderedInsert]
    intro hfalse
    rw [show strLe ActionType ExpiresQueryKey = true from by decide] at hfalse
    cases hfalse
  unfold valuesEncode encodeSegs
  rw [hsort]
  simp only [List.flatMap_cons, List.map_cons, List.map_nil, List.flatMap_nil,
    List.append_nil, List.singleton_append, List.nil_append]
  rw [escapeList_of_unreserved (intToString_unreserved expirySeconds)]
  rw [show escapeList (ActionType : String).data = ("Action" : String).data from by decide,
    show escapeList (ActionName : String).data
      = ("kafka-cluster%3AConnect" : String).data from by decide,
    show escapeList (ExpiresQueryKey : String).data
      = ("X-Amz-Expires" : String).data from by decide]
  show String.mk _ = _
  rw [show ("Action=kafka-cluster%3AConnect&X-Amz-Expires=" ++ toString expirySeconds)
      = String.mk (("Action=kafka-cluster%3AConnect&X-Amz-Expires="
          ++ toString expirySeconds).data) from rfl]
  apply congrArg String.mk
  rw [String.data_append]
  rfl

theorem buildRequest_ok (expirySeconds : Int) (host : String) (hh : isHostname host = true) :
    buildRequest expirySeconds host
      = .ok ⟨"GET", ⟨"https", host, "/",
          "Action=kafka-cluster%3AConnect&X-Amz-Expires=" ++ toString expirySeconds, ""⟩⟩ := by
  have hq := valuesEncode_buildQuery expirySeconds
  have hrqchars : ∀ c ∈ ("Action=kafka-cluster%3AConnect&X-Amz-Expires="
      ++ toString expirySeconds).data, urlChar c = true ∧ c.toNat ≠ 35 := by
    intro c hc
    rw [String.data_append] at hc
    rcases List.mem_append.mp hc with hm | hm
    · have hpre : ∀ c ∈ ("Action=kafka-cluster%3AConnect&X-Amz-Expires=" : String).data,
          urlChar c = true ∧ c.toNat ≠ 35 := by decide
      exact hpre c hm
    · have := unreservedChar_toNat (intToString_unreserved expirySeconds c hm)
      unfold urlChar
      simp only [Bool.and_eq_true, decide_eq_true_eq]
      omega
  have hsdata : (urlString ⟨"https", host, "/",
      "Action=kafka-cluster%3AConnect&X-Amz-Expires=" ++ toString expirySeconds, ""⟩).data
      = "https://".data ++ host.data ++ '/' :: '?' ::
          ("Action=kafka-cluster%3AConnect&X-Amz-Expires=" ++ toString expirySeconds).data := by
    simp only [urlString, String.data_append]
    rw [if_neg (show ¬("Action=kafka-cluster%3AConnect&X-Amz-Expires="
        ++ toString expirySeconds = "") from by
      intro hEq
      have := congrArg String.data hEq
      rw [String.data_append] at this
      simp at this)]
    simp [String.data_append]
  simp only [buildRequest]
  rw [hq]
  rw [urlParse_https hsdata hh hrqchars]

theorem sortPairs_buildQuery (expirySeconds : Int) :
    sortPairs [(ActionType, [ActionName]), (ExpiresQueryKey, [toString expirySeconds])]
      = [(ActionType, [ActionName]), (ExpiresQueryKey, [toString expirySeconds])] := by
  simp [sortPairs, List.insertionSort, List.orderedInsert]
  intro hfalse
  rw [show strLe ActionType ExpiresQueryKey = true from by decide] at hfalse
  cases hfalse

theorem parseQuery_buildQuery (expirySeconds : Int) :
    parseQuery ("Action=kafka-cluster%3AConnect&X-Amz-Expires=" ++ toString expirySeconds)
      = [(ActionType, [ActionName]), (ExpiresQueryKey, [toString expirySeconds])] := by
  rw [← valuesEncode_buildQuery expirySeconds]
  have hwf : ValuesWF [(ActionType, [ActionName]), (ExpiresQueryKey, [toString expirySeconds])] := by
    refine ⟨?_, ?_, ?_⟩
    · show ([ActionType, ExpiresQueryKey] : List String).Nodup
      decide
    · intro e he
      rcases List.mem_cons.mp he with rfl | he
      · simp
      rcases List.mem_cons.mp he with rfl | he
      · simp
      · cases he
    · intro e he
      rcases List.mem_cons.mp he with rfl | he
      · refine ⟨by decide, ?_⟩
        intro v hv
        rcases List.mem_singleton.mp hv with rfl
        decide
      rcases List.mem_cons.mp he with rfl | he
      · refine ⟨?_, ?_⟩
        · show ∀ c ∈ (ExpiresQueryKey : String).data, c.toNat < 256
          decide
        intro v hv
        rcases List.mem_singleton.mp hv with rfl
        intro c hc
        have := unreservedChar_toNat (intToString_unreserved expirySeconds c hc)
        omega
      · cases he
  rw [parseQuery_valuesEncode hwf, sortPairs_buildQuery expirySeconds]

/-! ## The claims -/

/-- C2: for every expiry value and endpoint hostname, `buildRequest`
constructs a GET request to `https://<host>/` whose query string holds
exactly the two parameters `Action=kafka-cluster:Connect` and
`X-Amz-Expires=<expiry>` (decimal), canonically percent-encoded and sorted
by key (`Action` before `X-Amz-Expires`). -/
theorem buildRequest_query_spec (expirySeconds : Int) (host : String)
    (hh : isHostname host = true) :
    ∃ req, buildRequest expirySeconds host = .ok req
      ∧ req.method = "GET"
      ∧ req.url.scheme = "https" ∧ req.url.host = host ∧ req.url.path = "/"
      ∧ req.url.fragment = ""
      ∧ req.url.rawQuery
          = queryEscape ActionType ++ "=" ++ queryEscape ActionName
            ++ "&" ++ queryEscape ExpiresQueryKey ++ "=" ++ queryEscape (toString expirySeconds)
      ∧ parseQuery req.url.rawQuery
          = [(ActionType, [ActionName]), (ExpiresQueryKey, [toString expirySeconds])] := by
  have hescInt : queryEscape (toString expirySeconds) = toString expirySeconds := by
    show String.mk (escapeList (toString expirySeconds).data) = toString expirySeconds
    rw [escapeList_of_unreserved (intToString_unreserved expirySeconds)]
  refine ⟨_, buildRequest_ok expirySeconds host hh, rfl, rfl, rfl, rfl, rfl, ?_, ?_⟩
  · show ("Action=kafka-cluster%3AConnect&X-Amz-Expires=" ++ toString expirySeconds) = _
    rw [show queryEscape ActionType = "Action" from by decide,
      show queryEscape ActionName = "kafka-cluster%3AConnect" from by decide,
      show queryEscape ExpiresQueryKey = "X-Amz-Expires" from by decide, hescInt]
    rfl
  · exact parseQuery_buildQuery expirySeconds

/-- C2 witness at the test's concrete endpoint and the default expiry. -/
theorem buildRequest_query_spec_witness :
    isHostname "kafka.us-west-2.amazonaws.com" = true
    ∧ ∃ req, buildRequest 900 "kafka.us-west-2.amazonaws.com" = .ok req
      ∧ req.method = "GET"
      ∧ req.url.scheme = "https" ∧ req.url.host = "kafka.us-west-2.amazonaws.com"
      ∧ req.url.path = "/"
      ∧ req.url.fragment = ""
      ∧ req.url.rawQuery
          = queryEscape ActionType ++ "=" ++ queryEscape ActionName
            ++ "&" ++ queryEscape ExpiresQueryKey ++ "=" ++ queryEscape (toString (900 : Int))
      ∧ parseQuery req.url.rawQuery
          = [(ActionType, [ActionName]), (ExpiresQueryKey, [toString (900 : Int)])] :=
  ⟨by decide, buildRequest_query_spec 900 "kafka.us-west-2.amazonaws.com" (by decide)⟩

/-- C4: for every parsable signed URL, the token finalizer sets a
`User-Agent` query parameter whose value is
`<LibName>/<version>/<runtime version>` (so it starts with the library
name and a slash), re-encodes the query, and base64-encodes (URL-safe
alphabet, no padding) the UTF-8 bytes of the resulting URL string. -/
theorem finalizeToken_spec {s : String} {u : URL} (h : urlParse s = .ok u) :
    addUserAgent s = (urlString (addUserAgentURL u), none)
      ∧ valuesGetAll (parseQuery (addUserAgentURL u).rawQuery) UserAgentKey
          = [LibName ++ "/" ++ version ++ "/" ++ runtimeVersion]
      ∧ finalizeToken s
          = (String.mk (base64UrlNoPad (strBytes (urlString (addUserAgentURL u)))), none) := by
  have h1 := addUserAgent_parse_ok h
  refine ⟨h1, ?_, ?_⟩
  · rw [addUserAgentURL_getAll_ua (urlParse_ok_chars h)]
    rfl
  · unfold finalizeToken
    rw [h1]
    rfl

/-- C4 witness on the test's concrete signed URL. -/
theorem finalizeToken_spec_witness :
    urlParse "https://kafka.us-west-2.amazonaws.com/?Action=kafka-cluster%3AConnect"
      = .ok ⟨"https", "kafka.us-west-2.amazonaws.com", "/", "Action=kafka-cluster%3AConnect", ""⟩
    ∧ (addUserAgent "https://kafka.us-west-2.amazonaws.com/?Action=kafka-cluster%3AConnect"
        = (urlString (addUserAgentURL
            ⟨"https", "kafka.us-west-2.amazonaws.com", "/", "Action=kafka-cluster%3AConnect", ""⟩), none)
      ∧ valuesGetAll (parseQuery (addUserAgentURL
          ⟨"https", "kafka.us-west-2.amazonaws.com", "/", "Action=kafka-cluster%3AConnect", ""⟩).rawQuery)
          UserAgentKey
          = [LibName ++ "/" ++ version ++ "/" ++ runtimeVersion]
      ∧ finalizeToken "https://kafka.us-west-2.amazonaws.com/?Action=kafka-cluster%3AConnect"
          = (String.mk (base64UrlNoPad (strBytes (urlString (addUserAgentURL
              ⟨"https", "kafka.us-west-2.amazonaws.com", "/", "Action=kafka-cluster%3AConnect", ""⟩)))),
            none)) :=
  ⟨rfl, finalizeToken_spec rfl⟩

/-- C6: for every input URL the model parser rejects, `addUserAgent`
returns the empty string together with a descriptive error that wraps the
parse error (and, being a total function, neither panics nor returns a
partial result). -/
theorem addUserAgent_invalid_url {s : String} {e : GoError} (h : urlParse s = .error e) :
    addUserAgent s = ("", some (.wrap "failed to parse signed url" e))
      ∧ (addUserAgent s).1 = ""
      ∧ ∃ e2, (addUserAgent s).2 = some e2 ∧ GoError.unwrap e2 = some e
        ∧ GoError.message e2 = "failed to parse signed url: " ++ GoError.message e := by
  have h1 := addUserAgent_parse_err h
  exact ⟨h1, by rw [h1], ⟨.wrap "failed to parse signed url" e, by rw [h1], rfl, rfl⟩⟩

/-- C6 witness on the test's `":invalidURL:"` input. -/
theorem addUserAgent_invalid_url_witness :
    urlParse ":invalidURL:" = .error (.errorf "missing protocol scheme")
    ∧ (addUserAgent ":invalidURL:"
        = ("", some (.wrap "failed to parse signed url" (.errorf "missing protocol scheme")))
      ∧ (addUserAgent ":invalidURL:").1 = ""
      ∧ ∃ e2, (addUserAgent ":invalidURL:").2 = some e2
        ∧ GoError.unwrap e2 = some (.errorf "missing protocol scheme")
        ∧ GoError.message e2
            = "failed to parse signed url: " ++ GoError.message (.errorf "missing protocol scheme")) :=
  ⟨rfl, addUserAgent_invalid_url rfl⟩

/-- C10: for every parsable input URL, `addUserAgent` leaves scheme, host
and path unchanged and preserves the values of every pre-existing query
parameter; the only query it changes is `User-Agent`. -/
theorem addUserAgent_frame {s : String} {u : URL} (h : urlParse s = .ok u) :
    addUserAgent s = (urlString (addUserAgentURL u), none)
      ∧ (addUserAgentURL u).scheme = u.scheme
      ∧ (addUserAgentURL u).host = u.host
      ∧ (addUserAgentURL u).path = u.path
      ∧ (∀ k, k ≠ UserAgentKey →
          valuesGetAll (parseQuery (addUserAgentURL u).rawQuery) k
            = valuesGetAll (parseQuery u.rawQuery) k)
      ∧ valuesGetAll (parseQuery (addUserAgentURL u).rawQuery) UserAgentKey
          = [String.intercalate "/" [LibName, version, runtimeVersion]] := by
  refine ⟨addUserAgent_parse_ok h, rfl, rfl, rfl, ?_,
    addUserAgentURL_getAll_ua (urlParse_ok_chars h)⟩
  intro k hk
  exact addUserAgentURL_getAll_ne (urlParse_ok_chars h) hk

/-- C10 witness on a signed URL carrying pre-existing parameters. -/
theorem addUserAgent_frame_witness :
    urlParse "https://kafka.us-west-2.amazonaws.com/?Action=kafka-cluster%3AConnect&X-Amz-Expires=900"
      = .ok ⟨"https", "kafka.us-west-2.amazonaws.com", "/",
          "Action=kafka-cluster%3AConnect&X-Amz-Expires=900", ""⟩
    ∧ valuesGetAll (parseQuery (addUserAgentURL
        ⟨"https", "kafka.us-west-2.amazonaws.com", "/",
          "Action=kafka-cluster%3AConnect&X-Amz-Expires=900", ""⟩).rawQuery) "Action"
        = ["kafka-cluster:Connect"]
    ∧ valuesGetAll (parseQuery (addUserAgentURL
        ⟨"https", "kafka.us-west-2.amazonaws.com", "/",
          "Action=kafka-cluster%3AConnect&X-Amz-Expires=900", ""⟩).rawQuery) "X-Amz-Expires"
        = ["900"] := by
  have h : urlParse
      "https://kafka.us-west-2.amazonaws.com/?Action=kafka-cluster%3AConnect&X-Amz-Expires=900"
      = .ok ⟨"https", "kafka.us-west-2.amazonaws.com", "/",
          "Action=kafka-cluster%3AConnect&X-Amz-Expires=900", ""⟩ := rfl
  refine ⟨h, ?_, ?_⟩
  · rw [(addUserAgent_frame h).2.2.2.2.1 "Action" (by decide)]
    rfl
  · rw [(addUserAgent_frame h).2.2.2.2.1 "X-Amz-Expires" (by decide)]
    rfl

/-- C5: `Validate` fails exactly when the region is unset or more than one
of {profile, role ARN, credentials} is set; with region set and at most one
source, it passes.  In particular profile and role ARN together fail. -/
theorem signerOptions_validate_spec (so : SignerOptions) :
    (Validate (some so) = none ↔ (so.region ≠ none ∧ credSourceCount so ≤ 1))
      ∧ (so.awsProfile ≠ none → so.roleARN ≠ none → Validate (some so) ≠ none) := by
  have hval : Validate (some so)
      = if so.region = none then some (.errorf "region must be provided")
        else if credSourceCount so > 1 then
          some (.errorf "please provide only one of AWS profile, Role ARN and AWS Credentials")
        else none := rfl
  constructor
  · rw [hval]
    by_cases hr : so.region = none
    · simp only [if_pos hr]
      constructor
      · intro h; cases h
      · rintro ⟨h1, h2⟩; exact absurd hr h1
    · by_cases hc : credSourceCount so > 1
      · simp only [if_neg hr, if_pos hc]
        constructor
        · intro h; cases h
        · rintro ⟨h1, h2⟩; omega
      · simp only [if_neg hr, if_neg hc]
        constructor
        · intro _; exact ⟨hr, by omega⟩
        · intro _; trivial
  · intro hp hrarn
    have hc : credSourceCount so > 1 := by
      unfold credSourceCount
      rw [if_pos hp, if_pos hrarn]
      omega
    rw [hval]
    by_cases hr : so.region = none
    · simp [if_pos hr]
    · simp only [if_neg hr, if_pos hc]
      simp

/-- C5 witness: profile and role ARN together fail validation; region
alone passes. -/
theorem signerOptions_validate_spec_witness :
    Validate (some ⟨some "us-west-2", some "profile", some "roleArn", none, none, 0, 0, none⟩)
      ≠ none
    ∧ Validate (some ⟨some "us-west-2", none, none, none, none, 0, 0, none⟩) = none := by
  constructor
  · exact (signerOptions_validate_spec _).2 (by simp) (by simp)
  · exact (signerOptions_validate_spec _).1.mpr ⟨by simp, by decide⟩

/-- C7: `GenerateAuthTokenFromRole` performs its assume-role request with
the supplied session name, or with `DefaultSessionName` when the supplied
name is empty: its result depends on the STS oracle only at inputs with
that session name (and the given role ARN), and the empty-name call equals
the `DefaultSessionName` call verbatim. -/
theorem generateAuthTokenFromRole_sessionName (loadConfig : ConfigLoader)
    (sts1 sts2 : STSFactory) (presign : Presigner) (region roleArn stsSessionName : String)
    (hagree : ∀ cfg inp, inp.roleArn = roleArn →
      inp.roleSessionName = (if stsSessionName = "" then DefaultSessionName else stsSessionName) →
      sts1 cfg inp = sts2 cfg inp) :
    GenerateAuthTokenFromRole loadConfig sts1 presign region roleArn stsSessionName
      = GenerateAuthTokenFromRole loadConfig sts2 presign region roleArn stsSessionName
    ∧ GenerateAuthTokenFromRole loadConfig sts1 presign region roleArn ""
      = GenerateAuthTokenFromRole loadConfig sts1 presign region roleArn DefaultSessionName := by
  constructor
  · have hload : loadCredentialsFromRoleArn loadConfig sts1 region roleArn
        (if stsSessionName = "" then DefaultSessionName else stsSessionName)
      = loadCredentialsFromRoleArn loadConfig sts2 region roleArn
        (if stsSessionName = "" then DefaultSessionName else stsSessionName) := by
      unfold loadCredentialsFromRoleArn
      cases hcfg : loadConfig [.withRegion region] with
      | error e => rfl
      | ok cfg =>
        dsimp only
        rw [hagree cfg
          ⟨roleArn, if stsSessionName = "" then DefaultSessionName else stsSessionName⟩ rfl rfl]
    simp only [GenerateAuthTokenFromRole]
    rw [hload]
  · simp only [GenerateAuthTokenFromRole]
    norm_num

/-- C7 witness: with an STS oracle that reports the session name it was
called with, the empty-name call behaves as the default-name call. -/
theorem generateAuthTokenFromRole_sessionName_witness :
    GenerateAuthTokenFromRole (fun _ => .ok ⟨.error (.errorf "unused")⟩)
      (fun _ inp => .error (.errorf inp.roleSessionName))
      (fun _ _ _ _ _ => .error (.errorf "nosign")) "us-west-2" "arn:role" ""
    = GenerateAuthTokenFromRole (fun _ => .ok ⟨.error (.errorf "unused")⟩)
      (fun _ _ => .error (.errorf "MSKSASLDefaultSession"))
      (fun _ _ _ _ _ => .error (.errorf "nosign")) "us-west-2" "arn:role" "" :=
  (generateAuthTokenFromRole_sessionName (fun _ => .ok ⟨.error (.errorf "unused")⟩)
    (fun _ inp => .error (.errorf inp.roleSessionName))
    (fun _ _ => .error (.errorf "MSKSASLDefaultSession"))
    (fun _ _ _ _ _ => .error (.errorf "nosign")) "us-west-2" "arn:role" ""
    (fun cfg inp _ h2 => by
      show Except.error (GoError.errorf inp.roleSessionName)
        = Except.error (GoError.errorf "MSKSASLDefaultSession")
      rw [h2]
      rfl)).1

/-- C9 (spec-modelled): the options-based assume-role strategy scopes its
STS client to the optional distinct STS region, falling back to the main
region when unset; and the in-source `loadCredentialsFromRoleArn` requests
its SDK config (from which the STS client is created) with the main region
only. -/
theorem assumeRole_sts_region (region roleArn stsSessionName : String)
    (stsRegion : Option String) (loadConfig loadConfig2 : ConfigLoader)
    (newFromConfig : STSFactory)
    (hagree : loadConfig [.withRegion region] = loadConfig2 [.withRegion region]) :
    (stsRegion = none → stsClientRegion region stsRegion = region)
    ∧ (∀ r, stsRegion = some r → stsClientRegion region stsRegion = r)
    ∧ loadCredentialsFromRoleArn loadConfig newFromConfig region roleArn stsSessionName
        = loadCredentialsFromRoleArn loadConfig2 newFromConfig region roleArn stsSessionName := by
  refine ⟨?_, ?_, ?_⟩
  · rintro rfl; rfl
  · rintro r rfl; rfl
  · unfold loadCredentialsFromRoleArn
    rw [hagree]

/-- C9 witness. -/
theorem assumeRole_sts_region_witness :
    (stsClientRegion "us-west-2" none = "us-west-2"
      ∧ stsClientRegion "us-west-2" (some "us-east-1") = "us-east-1")
    ∧ loadCredentialsFromRoleArn (fun _ => .error (.errorf "cfg down"))
        (fun _ _ => .error (.errorf "unused")) "us-west-2" "arn:role" "name"
      = loadCredentialsFromRoleArn (fun _ => .error (.errorf "cfg down"))
        (fun _ _ => .error (.errorf "unused")) "us-west-2" "arn:role" "name" := by
  have h := assumeRole_sts_region "us-west-2" "arn:role" "name" (some "us-east-1")
    (fun _ => .error (.errorf "cfg down")) (fun _ => .error (.errorf "cfg down"))
    (fun _ _ => .error (.errorf "unused")) rfl
  have h0 := assumeRole_sts_region "us-west-2" "arn:role" "name" none
    (fun _ => .error (.errorf "cfg down")) (fun _ => .error (.errorf "cfg down"))
    (fun _ _ => .error (.errorf "unused")) rfl
  exact ⟨⟨h0.1 rfl, h.2.1 "us-east-1" rfl⟩, h.2.2⟩

/-- C3: any failing stage short-circuits the pipeline and yields the empty
token together with an error wrapping the underlying cause under a
stage-identifying message.  The presign and STS oracles are universally
quantified, so a credential failure's result provably does not execute (or
depend on) the later stages. -/
theorem entryPoints_stage_failures (loadConfig : ConfigLoader) (newFromConfig : STSFactory)
    (presign : Presigner) (region awsProfile roleArn sessionName : String)
    (credentialsProvider : Except GoError Credentials) (credentials : Credentials)
    (e : GoError) :
    (loadDefaultCredentials loadConfig region = .error e →
        GenerateAuthToken loadConfig presign region
          = ("", some (.wrap "failed to load credentials" e)))
    ∧ (loadCredentialsFromProfile loadConfig region awsProfile = .error e →
        GenerateAuthTokenFromProfile loadConfig presign region awsProfile
          = ("", some (.wrap "failed to load credentials" e)))
    ∧ (loadCredentialsFromRoleArn loadConfig newFromConfig region roleArn
          (if sessionName = "" then DefaultSessionName else sessionName) = .error e →
        GenerateAuthTokenFromRole loadConfig newFromConfig presign region roleArn sessionName
          = ("", some (.wrap "failed to load credentials" e)))
    ∧ (credentialsProvider = .error e →
        GenerateAuthTokenFromCredentialsProvider presign region credentialsProvider
          = ("", some (.wrap "failed to load credentials" e)))
    ∧ (buildRequest DefaultExpirySeconds (endpointURLTemplate region) = .error e →
        constructAuthToken presign region credentials
          = ("", some (.wrap "failed to build request for signing" e)))
    ∧ (∀ req, buildRequest DefaultExpirySeconds (endpointURLTemplate region) = .ok req →
        presign credentials req (calculateSHA256Hash "") SigningName region = .error e →
        constructAuthToken presign region credentials
          = ("", some (.wrap "failed to sign request with aws sig v4" e)))
    ∧ (∀ req signedURL, buildRequest DefaultExpirySeconds (endpointURLTemplate region) = .ok req →
        presign credentials req (calculateSHA256Hash "") SigningName region = .ok signedURL →
        urlParse signedURL = .error e →
        constructAuthToken presign region credentials
          = ("", some (.wrap "failed to add user agent to the signed url"
              (.wrap "failed to parse signed url" e)))) := by
  refine ⟨?_, ?_, ?_, ?_, ?_, ?_, ?_⟩
  · intro h
    simp only [GenerateAuthToken, h]
  · intro h
    simp only [GenerateAuthTokenFromProfile, h]
  · intro h
    simp only [GenerateAuthTokenFromRole, h]
  · intro h
    simp only [GenerateAuthTokenFromCredentialsProvider,
      loadCredentialsFromCredentialsProvider, h]
  · intro h
    simp only [constructAuthToken, h]
  · intro req h1 h2
    simp only [constructAuthToken, signRequest, h1, h2]
  · intro req signedURL h1 h2 h3
    simp only [constructAuthToken, signRequest, h1, h2, addUserAgent_parse_err h3]

/-- C3 witness: a failing default-chain resolution short-circuits
`GenerateAuthToken` with the wrapped error chain and an empty token. -/
theorem entryPoints_stage_failures_witness :
    GenerateAuthToken (fun _ => .error (.errorf "boom"))
      (fun _ _ _ _ _ => .error (.errorf "nosign")) "us-west-2"
      = ("", some (.wrap "failed to load credentials"
          (.wrap "unable to load SDK config" (.errorf "boom")))) :=
  (entryPoints_stage_failures (fun _ => .error (.errorf "boom"))
    (fun _ _ => .error (.errorf "nosts")) (fun _ _ _ _ _ => .error (.errorf "nosign"))
    "us-west-2" "profile" "arn:role" "" (.error (.errorf "x")) ⟨"a", "s", "t"⟩
    (.wrap "unable to load SDK config" (.errorf "boom"))).1 rfl

/-- C8 counterexample: the digest the claim states for the empty string
(63 hex characters, missing the final `5`) is not what
`calculateSHA256Hash` returns. -/
theorem sha256_empty_claimed_digest_false :
    calculateSHA256Hash ""
      ≠ "e3b0c44298fc1c149afbf4c8996fb92427ae41e4649b934ca495991b7852b85" := by
  decide

/-- C8 (amended): `calculateSHA256Hash` maps `""` and `"test"` to the
standard 64-hex-character SHA-256 digests asserted by the unit test. -/
theorem sha256_known_digests :
    calculateSHA256Hash ""
        = "e3b0c44298fc1c149afbf4c8996fb92427ae41e4649b934ca495991b7852b855"
      ∧ calculateSHA256Hash "test"
        = "9f86d081884c7d659a2feaa0c55ad015a3bf4f1b2b0b822cd15d6c15b0f00a08" := by
  constructor <;> decide

/-- C1 (code bug): evaluated end to end on mock collaborators,
`GenerateAuthToken` returns only the pair (token string, nil error) — the
code has no secondary expiration-instant result, although the repository's
README destructures three return values from it. -/
theorem generateAuthToken_token_only :
    GenerateAuthToken
      (fun _ => .ok ⟨.ok ⟨"MOCK-ACCESS-KEY", "MOCK-SECRET-KEY", "MOCK-SESSION-TOKEN"⟩⟩)
      (fun _ _ _ _ _ => .ok
        "https://kafka.us-west-2.amazonaws.com/?Action=kafka-cluster%3AConnect&X-Amz-Expires=900")
      "us-west-2"
    = ("aHR0cHM6Ly9rYWZrYS51cy13ZXN0LTIuYW1hem9uYXdzLmNvbS8_QWN0aW9uPWthZmthLWNsdXN0ZXIlM0FDb25uZWN0JlVzZXItQWdlbnQ9YXdzLW1zay1pYW0tc2FzbC1zaWduZXItZ28lMkYxLjAuNCUyRmdvMS4yMCZYLUFtei1FeHBpcmVzPTkwMA",
      none) := by
  rfl

end MSKSigner
